import Mathlib

/-!
Verification of the HTML-to-JSON extraction pipeline in
parse_qe_html_to_json/parse_qe_inputs_to_json.py.

The development shallowly embeds the pipeline: the HTML document tree is an
inductive of elements and text nodes, the BeautifulSoup queries used by the
source are modelled as traversals of that tree, and the regular expressions
of the source are modelled by a small backtracking matcher with Python re
semantics (leftmost match, alternation tried left to right, greedy
quantifiers with backtracking, ASCII word boundaries).  Every regular
expression of the source is transcribed as a pattern value of this matcher.
-/

namespace QE

/-- Python whitespace class (ASCII part of the re module class for backslash-s). -/
def pyWhitespace (c : Char) : Bool :=
  c = ' ' || c = '\t' || c = '\n' || c = '\r' || c = '\x0b' || c = '\x0c'

/-- Python ASCII word character, the re module class for backslash-w. -/
def wordChar (c : Char) : Bool :=
  c.isAlpha || c.isDigit || c = '_'

/-- Collapse every run of whitespace into a single space (re.sub of a
whitespace run by one space, working from the right). -/
def collapseWs : List Char → List Char
  | [] => []
  | c :: cs =>
    match collapseWs cs with
    | [] => [if pyWhitespace c then ' ' else c]
    | d :: ds =>
      if pyWhitespace c && d = ' ' then d :: ds
      else (if pyWhitespace c then ' ' else c) :: d :: ds

/-- Drop characters satisfying p from both ends of a list. -/
def stripList (p : Char → Bool) (l : List Char) : List Char :=
  ((l.dropWhile p).reverse.dropWhile p).reverse

/-- Source _normalize_text: collapse whitespace runs to single spaces and
strip both ends. -/
def normalize_text (s : String) : String :=
  ⟨stripList pyWhitespace (collapseWs s.data)⟩

/-- Python str.strip with no argument (strip whitespace from both ends). -/
def stripWsStr (s : String) : String :=
  ⟨stripList pyWhitespace s.data⟩

/-- Python str.lower, ASCII. -/
def lowerStr (s : String) : String := ⟨s.data.map Char.toLower⟩

/-- Python str.upper, ASCII. -/
def upperStr (s : String) : String := ⟨s.data.map Char.toUpper⟩

/-- Whether needle is a leading segment of hay. -/
def listStarts : List Char → List Char → Bool
  | _, [] => true
  | [], _ :: _ => false
  | d :: ds, c :: cs => d = c && listStarts ds cs

/-- Whether needle occurs inside hay as a contiguous segment. -/
def listHasInfix (hay needle : List Char) : Bool :=
  if listStarts hay needle then true
  else
    match hay with
    | [] => false
    | _ :: ds => listHasInfix ds needle

/-- Python substring containment: needle in hay. -/
def containsStr (hay needle : String) : Bool :=
  listHasInfix hay.data needle.data

/-! ### A small regex engine with Python re semantics

Only the constructs appearing in the regular expressions of the source are
supported: literals (case sensitive or insensitive), single character
classes, greedy star and plus over a character class, concatenation, ordered
alternation, greedy option, capturing groups and the word boundary assertion.
-/

/-- Patterns of the source regular expressions. -/
inductive RE where
  | lit (s : List Char)
  | litCI (s : List Char)
  | cls (p : Char → Bool)
  | starCls (p : Char → Bool)
  | plusCls (p : Char → Bool)
  | seq (a b : RE)
  | alt (a b : RE)
  | opt (a : RE)
  | group (i : Nat) (a : RE)
  | wb

/-- Captured groups: group index paired with the captured characters. -/
abbrev Caps := List (Nat × List Char)

/-- Character of the subject at an index. -/
def charAt (s : List Char) (i : Nat) : Option Char := s.get? i

/-- Whether the character at an index is a word character (false past the ends). -/
def isWordAt (s : List Char) (i : Nat) : Bool :=
  match charAt s i with
  | some c => wordChar c
  | none => false

/-- Word boundary test at a position, as in the re module. -/
def wbAt (s : List Char) (i : Nat) : Bool :=
  (if i = 0 then false else isWordAt s (i - 1)) != isWordAt s i

/-- Match a literal at a position; returns the end position. -/
def litAt (s : List Char) (pos : Nat) : List Char → Option Nat
  | [] => some pos
  | c :: cs =>
    match charAt s pos with
    | some d => if d = c then litAt s (pos + 1) cs else none
    | none => none

/-- Case-insensitive literal match (the literal is stored lowercased). -/
def litAtCI (s : List Char) (pos : Nat) : List Char → Option Nat
  | [] => some pos
  | c :: cs =>
    match charAt s pos with
    | some d => if d.toLower = c then litAtCI s (pos + 1) cs else none
    | none => none

/-- Length of the maximal run of class characters starting at a position. -/
def runLen (s : List Char) (p : Char → Bool) (pos : Nat) : Nat :=
  ((s.drop pos).takeWhile p).length

/-- Explicit branch combinator so that reduction is predictable. -/
def obranch {α : Type} (a : Option α) (b : Unit → Option α) : Option α :=
  match a with
  | some x => some x
  | none => b ()

/-- Try repetition counts n, n-1, ..., 0 (greedy star backtracking). -/
def tryDown {α : Type} (f : Nat → Option α) : Nat → Option α
  | 0 => f 0
  | n + 1 => obranch (f (n + 1)) (fun _ => tryDown f n)

/-- Try repetition counts n, n-1, ..., 1 (greedy plus backtracking). -/
def tryDown1 {α : Type} (f : Nat → Option α) : Nat → Option α
  | 0 => none
  | n + 1 => obranch (f (n + 1)) (fun _ => tryDown1 f n)

/-- Continuation passing backtracking matcher.  The continuation receives the
position after the pattern and the captures collected so far; a branch fails
by returning none, upon which the matcher backtracks. -/
def reRun {α : Type} (s : List Char) : RE → Nat → Caps → (Nat → Caps → Option α) → Option α
  | .lit l, pos, caps, k =>
    match litAt s pos l with
    | some p => k p caps
    | none => none
  | .litCI l, pos, caps, k =>
    match litAtCI s pos l with
    | some p => k p caps
    | none => none
  | .cls p, pos, caps, k =>
    match charAt s pos with
    | some c => if p c then k (pos + 1) caps else none
    | none => none
  | .starCls p, pos, caps, k => tryDown (fun n => k (pos + n) caps) (runLen s p pos)
  | .plusCls p, pos, caps, k => tryDown1 (fun n => k (pos + n) caps) (runLen s p pos)
  | .seq a b, pos, caps, k => reRun s a pos caps (fun p c => reRun s b p c k)
  | .alt a b, pos, caps, k =>
    obranch (reRun s a pos caps k) (fun _ => reRun s b pos caps k)
  | .opt a, pos, caps, k => obranch (reRun s a pos caps k) (fun _ => k pos caps)
  | .group i a, pos, caps, k =>
    reRun s a pos caps (fun p c => k p ((i, (s.drop pos).take (p - pos)) :: c))
  | .wb, pos, caps, k => if wbAt s pos then k pos caps else none

/-- A match: start position, end position, captures. -/
abbrev REMatch := Nat × Nat × Caps

/-- Try to match anchored at consecutive start positions, fuel bounds the
number of start positions tried (re.search semantics: leftmost match wins). -/
def reSearchAux (s : List Char) (re : RE) : Nat → Nat → Option REMatch
  | _, 0 => none
  | start, fuel + 1 =>
    match reRun s re start [] (fun p c => some (p, c)) with
    | some (p, c) => some (start, p, c)
    | none => reSearchAux s re (start + 1) fuel

/-- re.search over the whole subject. -/
def reSearch (s : List Char) (re : RE) : Option REMatch :=
  reSearchAux s re 0 (s.length + 1)

/-- re.finditer: non-overlapping matches, scanning left to right. -/
def reFindAllAux (s : List Char) (re : RE) : Nat → Nat → List REMatch
  | _, 0 => []
  | start, fuel + 1 =>
    match reSearchAux s re start (s.length + 1 - start) with
    | some (st, en, c) => (st, en, c) :: reFindAllAux s re (max en (st + 1)) fuel
    | none => []

/-- All matches of a pattern in the subject. -/
def reFindAll (s : List Char) (re : RE) : List REMatch :=
  reFindAllAux s re 0 (s.length + 1)

/-- re.fullmatch: the pattern must consume the whole subject. -/
def reFullmatch (s : List Char) (re : RE) : Bool :=
  (reRun s re 0 [] (fun p _ => if p = s.length then some () else none)).isSome

/-- Text of a captured group (empty when the group is absent). -/
def capGet (caps : Caps) (i : Nat) : String :=
  match caps.lookup i with
  | some l => ⟨l⟩
  | none => ""

/-- Text of a whole match. -/
def matchText (s : List Char) (m : REMatch) : String :=
  ⟨(s.drop m.1).take (m.2.1 - m.1)⟩

/-- Case-sensitive literal pattern. -/
def reStr (s : String) : RE := .lit s.data

/-- Case-insensitive literal pattern. -/
def reStrCI (s : String) : RE := .litCI (s.data.map Char.toLower)

/-- Concatenation of a pattern list. -/
def reCat : List RE → RE
  | [] => .lit []
  | [r] => r
  | r :: rs => .seq r (reCat rs)

/-- Ordered alternation of a pattern list. -/
def reAlts : List RE → RE
  | [] => .lit []
  | [r] => r
  | r :: rs => .alt r (reAlts rs)

/-! ### The regular expressions of the source, transcribed pattern by pattern -/

/-- Class of a decimal digit. -/
def digitCls (c : Char) : Bool := c.isDigit

/-- First character of the identifier class of _normalize_condition. -/
def identFirstCls (c : Char) : Bool := c.isAlpha || c = '_'

/-- Continuation characters of the identifier class of _normalize_condition:
letters, digits, underscore and parentheses. -/
def identRestCls (c : Char) : Bool :=
  c.isAlpha || c.isDigit || c = '_' || c = '(' || c = ')'

/-- Right-hand side value class of _normalize_condition: letters, digits,
underscore, dot, minus and apostrophe. -/
def valueCls (c : Char) : Bool :=
  c.isAlpha || c.isDigit || c = '_' || c = '.' || c = '-' || c = '\x27'

/-- Unit token class of _extract_units: letters, slash, caret, digits,
minus, star and dot. -/
def unitTokCls (c : Char) : Bool :=
  c.isAlpha || c.isDigit || c = '/' || c = '^' || c = '-' || c = '*' || c = '.'

/-- Unit token class of the verbatim acceptance rule of _normalize_unit:
letters, slash, caret, digits, minus and dot (no star). -/
def unitTokNoStarCls (c : Char) : Bool :=
  c.isAlpha || c.isDigit || c = '/' || c = '^' || c = '-' || c = '.'

/-- Any character except a closing parenthesis. -/
def notRparenCls (c : Char) : Bool := c ≠ ')'

/-- Any character except a dot or a semicolon (clause capture class). -/
def notDotSemiCls (c : Char) : Bool := c ≠ '.' && c ≠ ';'

/-- Any character except an apostrophe. -/
def notQuoteCls (c : Char) : Bool := c ≠ '\x27'

/-- Number class inside interval brackets: minus, digit, dot. -/
def bracketNumCls (c : Char) : Bool := c.isDigit || c = '-' || c = '.'

/-- Signed decimal number: optional minus, digits, optional fraction. -/
def reNumber : RE :=
  reCat [.opt (reStr "-"), .plusCls digitCls,
         .opt (reCat [reStr ".", .plusCls digitCls])]

/-- First range pattern: number, less-than, word, less-than, number, with
optional whitespace around the comparison signs. -/
def reRangeIneq : RE :=
  reCat [.group 1 reNumber, .starCls pyWhitespace, reStr "<",
         .starCls pyWhitespace, .plusCls wordChar, .starCls pyWhitespace,
         reStr "<", .starCls pyWhitespace, .group 2 reNumber]

/-- Second range pattern: the words in or within, then an open interval in
reversed bracket notation. -/
def reRangeBracket : RE :=
  reCat [.wb, .group 1 (.alt (reStr "in") (reStr "within")),
         .starCls pyWhitespace, reStr "]", .starCls pyWhitespace,
         .group 2 (.plusCls bracketNumCls), .starCls pyWhitespace, reStr ",",
         .starCls pyWhitespace, .group 3 (.plusCls bracketNumCls),
         .starCls pyWhitespace, reStr "["]

/-- Third range pattern: between number and number (case-insensitive). -/
def reRangeBetween : RE :=
  reCat [reStrCI "between", .plusCls pyWhitespace, .group 1 reNumber,
         .plusCls pyWhitespace, reStrCI "and", .plusCls pyWhitespace,
         .group 2 reNumber]

/-- Fourth range pattern: from number to number (case-insensitive). -/
def reRangeFromTo : RE :=
  reCat [reStrCI "from", .plusCls pyWhitespace, .group 1 reNumber,
         .plusCls pyWhitespace, reStrCI "to", .plusCls pyWhitespace,
         .group 2 reNumber]

/-- Parenthesized group pattern of _extract_units. -/
def reParen : RE :=
  reCat [reStr "(", .group 1 (.plusCls notRparenCls), reStr ")"]

/-- The in-token pattern of _extract_units: word boundary, the word in,
whitespace, a unit token, word boundary. -/
def reInUnit : RE :=
  reCat [.wb, reStr "in", .plusCls pyWhitespace,
         .group 1 (.plusCls unitTokCls), .wb]

/-- The units-of pattern of _extract_units (case-insensitive, no trailing
word boundary in the source). -/
def reOfUnit : RE :=
  reCat [reStrCI "unit", .opt (reStrCI "s"), reStrCI " of",
         .plusCls pyWhitespace, .group 1 (.plusCls unitTokCls)]

/-- Identifier of _normalize_condition (at least two characters). -/
def reIdent : RE := reCat [.cls identFirstCls, .plusCls identRestCls]

/-- First condition pattern: identifier, comparison operator, value. -/
def reCondOp : RE :=
  reCat [.group 1 reIdent, .starCls pyWhitespace,
         .group 2 (reAlts [reStr "==", reStr "=", reStr "/=", reStr ">=",
                           reStr "<=", reStr ">", reStr "<"]),
         .starCls pyWhitespace, .group 3 (.plusCls valueCls)]

/-- Second condition pattern: identifier is true/false (case-insensitive). -/
def reCondIsBool : RE :=
  reCat [.wb, .group 1 reIdent, .plusCls pyWhitespace, reStrCI "is",
         .plusCls pyWhitespace,
         .group 2 (reAlts [reStrCI ".true.", reStrCI ".false.",
                           reStrCI "true", reStrCI "false"]),
         .wb]

/-- Third condition pattern: identifier followed by the word set
(case-insensitive). -/
def reCondSet : RE :=
  reCat [.wb, .group 1 reIdent, .plusCls pyWhitespace, reStrCI "set", .wb]

/-- Clause pattern of _extract_constraints: a literal phrase then the clause
text up to the next dot or semicolon (case-insensitive). -/
def reClause (phrase : String) : RE :=
  .seq (reStrCI phrase) (.group 1 (.plusCls notDotSemiCls))

/-- Single-quoted literal pattern of _extract_options. -/
def reQuoted : RE :=
  reCat [reStr "\x27", .plusCls notQuoteCls, reStr "\x27"]

/-! ### Pure text extractors of the source -/

/-- Source _map_type: containment tests on the upper-cased stripped type
text, overridden to Array when the name holds a parenthesis. -/
def map_type (type_text name : String) : Option String :=
  let normalized := stripWsStr (upperStr type_text)
  let base : Option String :=
    if containsStr normalized "CHARACTER" then some "String"
    else if containsStr normalized "INTEGER" then some "Integer"
    else if containsStr normalized "REAL" then some "Real"
    else if containsStr normalized "LOGICAL" then some "Logical"
    else none
  match base with
  | none => none
  | some b =>
    if containsStr name "(" || containsStr name ")" then some "Array" else some b

/-- The fixed unit symbol table of _normalize_unit. -/
def unit_map : List (String × String) :=
  [("ry", "Ry"), ("rydberg", "Ry"), ("ev", "eV"), ("bohr", "bohr"),
   ("angstrom", "angstrom"), ("a.u", "a.u."), ("au", "a.u."), ("amu", "amu"),
   ("kcal/mol", "kcal/mol"), ("kelvin", "K"), ("k", "K"), ("fs", "fs"),
   ("cm", "cm"), ("nm", "nm"), ("pm", "pm"), ("ha", "Ha"), ("hartree", "Ha"),
   ("1/bohr^3", "1/bohr^3"), ("ry/a.u", "Ry/a.u."), ("ry/a.u.", "Ry/a.u."),
   ("a.u./ry", "a.u./Ry")]

/-- Python text.lower().strip of dots, as _normalize_unit computes it. -/
def lowerStripDots (text : String) : String :=
  ⟨stripList (fun c => c = '.') (text.data.map Char.toLower)⟩

/-- Source _normalize_unit: symbol table lookup on the lowercased
dot-stripped text, then the two fullmatch fallbacks. -/
def normalize_unit (text : String) : Option String :=
  if text = "" then none
  else
    match unit_map.lookup (lowerStripDots text) with
    | some u => some u
    | none =>
      if reFullmatch (lowerStripDots text).data (reStr "1/bohr^3") then some "1/bohr^3"
      else if reFullmatch text.data (.plusCls unitTokNoStarCls) && text.length ≤ 12 then
        some text
      else none

/-- Candidate from the first parenthesized group of the description. -/
def parenCands (d : String) : List String :=
  match reSearch d.data reParen with
  | some m => [normalize_text (capGet m.2.2 1)]
  | none => []

/-- Candidates from every in-token occurrence of the description. -/
def inCands (d : String) : List String :=
  (reFindAll d.data reInUnit).map (fun m => normalize_text (capGet m.2.2 1))

/-- Candidates from every units-of occurrence of the description. -/
def ofCands (d : String) : List String :=
  (reFindAll d.data reOfUnit).map (fun m => normalize_text (capGet m.2.2 1))

/-- The first candidate that normalizes successfully. -/
def firstNorm : List String → Option String
  | [] => none
  | c :: cs =>
    match normalize_unit c with
    | some u => some u
    | none => firstNorm cs

/-- Source _extract_units: ranked candidates, first normalizing one wins. -/
def extract_units (description : Option String) : Option String :=
  match description with
  | none => none
  | some d =>
    if d = "" then none
    else firstNorm (parenCands d ++ inCands d ++ ofCands d)

/-- Source _extract_range: four patterns tried in order, first match wins. -/
def extract_range (description : Option String) : Option String :=
  match description with
  | none => none
  | some d =>
    if d = "" then none
    else
      match reSearch d.data reRangeIneq with
      | some m => some (capGet m.2.2 1 ++ " < x < " ++ capGet m.2.2 2)
      | none =>
        match reSearch d.data reRangeBracket with
        | some m => some (capGet m.2.2 2 ++ ".." ++ capGet m.2.2 3)
        | none =>
          match reSearch d.data reRangeBetween with
          | some m => some (capGet m.2.2 1 ++ ".." ++ capGet m.2.2 2)
          | none =>
            match reSearch d.data reRangeFromTo with
            | some m => some (capGet m.2.2 1 ++ ".." ++ capGet m.2.2 2)
            | none => none

/-- Source _normalize_condition: three condition patterns tried in order. -/
def normalize_condition (text : String) : Option String :=
  if text = "" then none
  else
    let t := normalize_text text
    match reSearch t.data reCondOp with
    | some m => some (capGet m.2.2 1 ++ " " ++ capGet m.2.2 2 ++ " " ++ capGet m.2.2 3)
    | none =>
      match reSearch t.data reCondIsBool with
      | some m => some (capGet m.2.2 1 ++ " == " ++ upperStr (capGet m.2.2 2))
      | none =>
        match reSearch t.data reCondSet with
        | some m => some (capGet m.2.2 1 ++ " == .TRUE.")
        | none => none

/-- The structured constraint record of the source. -/
structure ConstraintSet where
  requires : List String
  conflicts : List String
  implies : List String
  validWhen : List String
deriving Repr, DecidableEq

/-- Order-preserving first-occurrence de-duplication of _extract_constraints. -/
def dedupKeepFirst (l : List String) : List String :=
  go [] l
where
  /-- Walk with a seen accumulator, keeping first occurrences. -/
  go (seen : List String) : List String → List String
    | [] => []
    | x :: xs => if x ∈ seen then go seen xs else x :: go (seen ++ [x]) xs

/-- The clause phrases of _extract_constraints, in source order. -/
def clausePhrases : List String :=
  ["only if ", "only when ", "used only when ", "if "]

/-- Raw clauses captured by the four clause patterns, in pattern order. -/
def rawClauses (d : String) : List String :=
  clausePhrases.foldr
    (fun phrase acc =>
      ((reFindAll d.data (reClause phrase)).map
        (fun m => normalize_text (capGet m.2.2 1))) ++ acc)
    []

/-- Source _extract_constraints: capture clauses, normalize, de-duplicate,
and wrap into a ConstraintSet with only validWhen populated; none when no
clause parses. -/
def extract_constraints (description : Option String) : Option ConstraintSet :=
  match description with
  | none => none
  | some d =>
    if d = "" then none
    else
      let normalized := (rawClauses d).filterMap normalize_condition
      if normalized = [] then none
      else some { requires := [], conflicts := [], implies := [],
                  validWhen := dedupKeepFirst normalized }

/-- validWhen list of an optional constraint set (empty when absent). -/
def validWhenOf (o : Option ConstraintSet) : List String :=
  match o with
  | some cs => cs.validWhen
  | none => []

/-! ### The document tree and the BeautifulSoup queries used by the source -/

/-- An HTML node: an element with tag, class list and children, or text. -/
inductive Node where
  | text (s : String)
  | elem (tag : String) (classes : List String) (children : List Node)

/-- Children of a node (empty for text). -/
def childrenOf : Node → List Node
  | .text _ => []
  | .elem _ _ cs => cs

/-- Whether a node is an element with the given tag. -/
def isTag (t : String) : Node → Bool
  | .elem tag _ _ => tag = t
  | .text _ => false

/-- Whether an element node carries the given style class. -/
def hasClass (c : String) : Node → Bool
  | .elem _ cls _ => c ∈ cls
  | .text _ => false

mutual
/-- All descendants of a node in document (pre-) order, the node excluded,
as find_all traverses them. -/
def allDesc : Node → List Node
  | .text _ => []
  | .elem _ _ cs => allDescList cs

/-- Descendant collection over a child list. -/
def allDescList : List Node → List Node
  | [] => []
  | c :: cs => c :: allDesc c ++ allDescList cs
end

mutual
/-- The text-node strings below a node, in document order. -/
def textPieces : Node → List String
  | .text s => [s]
  | .elem _ _ cs => textPiecesList cs

/-- Text-piece collection over a child list. -/
def textPiecesList : List Node → List String
  | [] => []
  | c :: cs => textPieces c ++ textPiecesList cs
end

/-- get_text with a one-space separator and strip=True: strip each string,
drop the empty ones, join with single spaces. -/
def getTextStrip (n : Node) : String :=
  String.intercalate " " (((textPieces n).map stripWsStr).filter (fun s => s ≠ ""))

/-- get_text with no arguments: plain concatenation of the strings. -/
def getTextRaw (n : Node) : String :=
  String.join (textPieces n)

/-- find_all(tag): descendant elements with the tag, document order. -/
def findAllTag (t : String) (n : Node) : List Node :=
  (allDesc n).filter (isTag t)

/-- find(tag): the first descendant element with the tag. -/
def findTag (t : String) (n : Node) : Option Node :=
  (findAllTag t n).head?

/-- find_all(tag, recursive=False): direct children with the tag. -/
def findDirectTag (t : String) (n : Node) : List Node :=
  (childrenOf n).filter (isTag t)

/-- find_all(tag, class_=c): descendants with the tag carrying the class. -/
def findAllTagClass (t c : String) (n : Node) : List Node :=
  (allDesc n).filter (fun m => isTag t m && hasClass c m)

/-- find(tag, class_=c): first descendant with the tag carrying the class. -/
def findTagClass (t c : String) (n : Node) : Option Node :=
  (findAllTagClass t c n).head?

/-! ### Table-level extractors of the source -/

/-- Source _extract_default for one row: the row must hold an italic tag
whose text holds Default, and at least two data cells; the second data
cell's normalized text is the default. -/
def defaultOfRow (tr : Node) : Option String :=
  match findTag "i" tr with
  | some itag =>
    if containsStr (getTextRaw itag) "Default" then
      match (findAllTag "td" tr).drop 1 with
      | td1 :: _ => some (normalize_text (getTextStrip td1))
      | [] => none
    else none
  | none => none

/-- Source _extract_default: first row of the table that yields a default. -/
def extract_default (table : Node) : Option String :=
  (findAllTag "tr" table).findSome? defaultOfRow

/-- Source _extract_description: normalized text of every pre block, the
non-empty parts space-joined and normalized; none when no pre exists. -/
def extract_description (table : Node) : Option String :=
  match findAllTag "pre" table with
  | [] => none
  | pres =>
    some (normalize_text (String.intercalate " "
      ((pres.map (fun p => normalize_text (getTextStrip p))).filter (fun s => s ≠ ""))))

/-- Normalized texts of the flag-class spans of a table, document order. -/
def flagSpanValues (table : Node) : List String :=
  (findAllTagClass "span" "flag" table).map (fun sp => normalize_text (getTextStrip sp))

/-- One step of the flag option loop: append when non-empty and unseen. -/
def addFlag (acc : List String) (val : String) : List String :=
  if val = "" ∨ val ∈ acc then acc else acc ++ [val]

/-- One step of the quoted literal loop: append when unseen. -/
def addQuoted (acc : List String) (val : String) : List String :=
  if val ∈ acc then acc else acc ++ [val]

/-- The single-quoted literal substrings of a description, in order. -/
def quotedLiterals (d : String) : List String :=
  (reFindAll d.data reQuoted).map (matchText d.data)

/-- Source _extract_options: de-duplicated flag span texts, then the quoted
literals of the description not already present. -/
def extract_options (table : Node) (description : Option String) : List String :=
  let flags := (flagSpanValues table).foldl addFlag []
  match description with
  | some d => if d = "" then flags else (quotedLiterals d).foldl addQuoted flags
  | none => flags

/-- The recognized raw type tokens of _is_variable_table. -/
def typeTokens : List String := ["CHARACTER", "INTEGER", "REAL", "LOGICAL"]

/-- The first direct row of a table. -/
def firstRowOf (table : Node) : Option Node :=
  (findDirectTag "tr" table).head?

/-- Normalized header-cell text of the first direct row. -/
def varNameOf (table : Node) : Option String :=
  (firstRowOf table).bind fun row =>
    (findTag "th" row).map fun th => normalize_text (getTextStrip th)

/-- Normalized text of the first data cell of the first direct row. -/
def rawTypeText (table : Node) : Option String :=
  (firstRowOf table).bind fun row =>
    ((findAllTag "td" row).head?).map fun td => normalize_text (getTextStrip td)

/-- Source _is_variable_table: the first direct row must hold a header cell
with non-empty text not holding the Cards-options marker, at least one data
cell, and the first data cell's upper-cased text must be a type token. -/
def is_variable_table (table : Node) : Bool :=
  match firstRowOf table with
  | none => false
  | some row =>
    match findTag "th" row, findAllTag "td" row with
    | some th, _ :: _ =>
      let nameText := normalize_text (getTextStrip th)
      if nameText = "" || containsStr nameText "Card\x27s options" then false
      else
        match rawTypeText table with
        | some typeText => upperStr typeText ∈ typeTokens
        | none => false
    | _, _ => false

/-- The variable record built by _parse_variable_table. -/
structure VarInfo where
  name : String
  sectionName : String
  sectionType : String
  type : String
  default : Option String
  description : Option String
  options : List String
  units : Option String
  range : Option String
  exampleVal : Option String
  since : Option String
  notes : Option String
  constraints : Option ConstraintSet
  rawText : Option String
deriving Repr, DecidableEq

/-- Source _parse_variable_table: classify, read name and raw type, map the
type, then run every field extractor. -/
def parse_variable_table (table : Node) (sectionTitle sectionType : String) :
    Option VarInfo :=
  if is_variable_table table then
    match varNameOf table, rawTypeText table with
    | some name, some typeText =>
      match map_type typeText name with
      | none => none
      | some mappedType =>
        let default := extract_default table
        let description := extract_description table
        let options := extract_options table description
        let units := extract_units description
        let range := extract_range description
        let constraints := extract_constraints description
        some { name := name, sectionName := sectionTitle,
               sectionType := sectionType, type := mappedType,
               default := default, description := description,
               options := options, units := units, range := range,
               exampleVal := none, since := none, notes := none,
               constraints := constraints, rawText := description }
    | _, _ => none
  else none

/-- Card options record of _extract_card_options. -/
structure CardOpts where
  options : List String
  default : Option String
deriving Repr, DecidableEq

/-- One nested table of _extract_card_options: a header cell whose raw text
holds the Cards-options marker yields its flag options and default. -/
def cardOptsOfTable (table : Node) : Option CardOpts :=
  match findTag "th" table with
  | none => none
  | some th =>
    if containsStr (getTextRaw th) "Card\x27s options" then
      some { options := (flagSpanValues table).foldl addFlag [],
             default := extract_default table }
    else none

/-- Source _extract_card_options: first nested table that matches. -/
def extract_card_options (sectionTable : Node) : Option CardOpts :=
  (findAllTag "table" sectionTable).findSome? cardOptsOfTable

/-! ### Section location (get_sections) -/

/-- A located section: title, section type and its content table. -/
structure SectionRec where
  title : String
  sectionType : String
  table : Node

mutual
/-- Every h2 element below (or at) a node in document order, paired with its
ancestor chain, nearest ancestor first. -/
def h2sWithAnc (anc : List Node) : Node → List (Node × List Node)
  | .text _ => []
  | .elem tag cls cs =>
    (if tag = "h2" then [(Node.elem tag cls cs, anc)] else []) ++
      h2sWithAncList (Node.elem tag cls cs :: anc) cs

/-- h2 collection over a child list. -/
def h2sWithAncList (anc : List Node) : List Node → List (Node × List Node)
  | [] => []
  | c :: cs => h2sWithAnc anc c ++ h2sWithAncList anc cs
end

/-- The loop body of get_sections for one h2: recognize the marker, pick the
name node, build the title, and attach the nearest enclosing table. -/
def sectionOfH2 (h2 : Node) (anc : List Node) : Option SectionRec :=
  let headerText := getTextStrip h2
  let choice : Option (String × Option Node) :=
    if containsStr headerText "Namelist:" then
      some ("namelist", findTagClass "span" "namelist" h2)
    else if containsStr headerText "Card:" then
      some ("card", findTagClass "span" "card" h2)
    else none
  match choice with
  | none => none
  | some (stype, nameNode) =>
    let title := normalize_text
      (match nameNode with
       | some n => getTextStrip n
       | none => headerText)
    match anc.find? (isTag "table") with
    | none => none
    | some t => some { title := title, sectionType := stype, table := t }

/-- Source get_sections: the recognized sections in document order. -/
def get_sections (doc : Node) : List SectionRec :=
  (h2sWithAnc [] doc).filterMap (fun p => sectionOfH2 p.1 p.2)

/-! ### The main loop and the five artifacts -/

/-- diagnostics.json per-variable record. -/
structure DiagEntry where
  type : String
  options : List String
  default : Option String
  range : Option String
  units : Option String
  sectionName : String
deriving Repr, DecidableEq

/-- ranges.json per-variable record. -/
structure RangeEntry where
  range : Option String
  units : Option String
deriving Repr, DecidableEq

/-- completion.json per-section record. -/
structure SectionEntry where
  sectionType : String
  varEntries : List (String × VarInfo)
  cardOptions : Option CardOpts
deriving Repr, DecidableEq

/-- snippets.json per-section record. -/
structure Snippet where
  pfx : String
  body : List String
  description : String
deriving Repr, DecidableEq

/-- The five JSON artifacts as insertion-ordered key-value maps. -/
structure Artifacts where
  sections : List (String × SectionEntry)
  diagVariables : List (String × DiagEntry)
  diagCards : List (String × CardOpts)
  constraintVariables : List (String × ConstraintSet)
  rangeVariables : List (String × RangeEntry)
  snippets : List (String × Snippet)
deriving Repr, DecidableEq

/-- Python dict assignment: overwrite in place, else append. -/
def dinsert {α : Type} (k : String) (v : α) :
    List (String × α) → List (String × α)
  | [] => [(k, v)]
  | (k', v') :: rest =>
    if k' = k then (k, v) :: rest else (k', v') :: dinsert k v rest

/-- Python dict lookup. -/
def alookup {α : Type} (k : String) : List (String × α) → Option α
  | [] => none
  | (k', v) :: rest => if k' = k then some v else alookup k rest

/-- The empty artifact state main starts from. -/
def emptyArtifacts : Artifacts :=
  { sections := [], diagVariables := [], diagCards := [],
    constraintVariables := [], rangeVariables := [], snippets := [] }

/-- One step of the inner table loop of main: parse one nested table and
store the variable under its name, overwriting in place. -/
def varStep (title sty : String) (vars : List (String × VarInfo)) (table : Node) :
    List (String × VarInfo) :=
  match parse_variable_table table title sty with
  | none => vars
  | some vi => dinsert vi.name vi vars

/-- The inner table loop of main: parse every nested table of the section
into the insertion-ordered variables dict, keyed by variable name. -/
def sectionVariables (sec : SectionRec) : List (String × VarInfo) :=
  (findAllTag "table" sec.table).foldl (varStep sec.title sec.sectionType) []

/-- The completion.json section entry main builds, cardOptions attached for
card sections when _extract_card_options finds them. -/
def sectionEntryOf (sec : SectionRec) : SectionEntry :=
  let vars := sectionVariables sec
  if sec.sectionType = "card" then
    { sectionType := sec.sectionType, varEntries := vars,
      cardOptions := extract_card_options sec.table }
  else
    { sectionType := sec.sectionType, varEntries := vars, cardOptions := none }

/-- The options hint of a card snippet header line. -/
def optHintOf (e : SectionEntry) : String :=
  match e.cardOptions with
  | some co =>
    if co.options = [] then ""
    else " \x7b " ++ String.intercalate " | " co.options ++ " \x7d"
  | none => ""

/-- The snippet main synthesizes for one section. -/
def snippetOf (sec : SectionRec) (e : SectionEntry) : Snippet :=
  if sec.sectionType = "namelist" then
    { pfx := sec.title,
      body := ["&" ++ sec.title, "  $\x7b1:var\x7d = $\x7b2:value\x7d", "/"],
      description := sec.sectionType ++ " " ++ sec.title }
  else
    { pfx := sec.title,
      body := [sec.title ++ optHintOf e, "$\x7b1:...\x7d"],
      description := sec.sectionType ++ " " ++ sec.title }

/-- The diagnostics.json record of one variable. -/
def diagEntryOf (title : String) (vi : VarInfo) : DiagEntry :=
  { type := vi.type, options := vi.options, default := vi.default,
    range := vi.range, units := vi.units, sectionName := title }

/-- Python truthiness of an optional string (an empty string is falsy). -/
def optTruthy (o : Option String) : Bool :=
  match o with
  | some s => s ≠ ""
  | none => false

/-- The per-variable writes of main: diagnostics always, constraints.json
only when the constraint set is present, ranges.json only when range or
units is truthy. -/
def processVar (title : String) (a : Artifacts) (p : String × VarInfo) :
    Artifacts :=
  let key := title ++ "." ++ p.1
  let a1 := { a with
    diagVariables := dinsert key (diagEntryOf title p.2) a.diagVariables }
  let a2 :=
    match p.2.constraints with
    | some cs => { a1 with
        constraintVariables := dinsert key cs a1.constraintVariables }
    | none => a1
  if optTruthy p.2.range || optTruthy p.2.units then
    { a2 with rangeVariables :=
        dinsert key { range := p.2.range, units := p.2.units } a2.rangeVariables }
  else a2

/-- The variable loop of main over one section. -/
def processVars (title : String) (a : Artifacts)
    (vars : List (String × VarInfo)) : Artifacts :=
  vars.foldl (processVar title) a

/-- The diagnostics.json cards write of main: only card sections whose card
options were found contribute. -/
def updCards (a : Artifacts) (sec : SectionRec) (entry : SectionEntry) : Artifacts :=
  if sec.sectionType = "card" then
    match entry.cardOptions with
    | some co => { a with diagCards := dinsert sec.title co a.diagCards }
    | none => a
  else a

/-- The body of the section loop of main, in source order: section entry and
card options, completion entry, snippet, then the per-variable writes. -/
def processSection (a : Artifacts) (sec : SectionRec) : Artifacts :=
  let entry := sectionEntryOf sec
  let a1 := updCards a sec entry
  let a2 := { a1 with sections := dinsert sec.title entry a1.sections }
  let a3 := { a2 with snippets := dinsert sec.title (snippetOf sec entry) a2.snippets }
  processVars sec.title a3 (sectionVariables sec)

/-- The artifact construction of main over the located sections. -/
def runMain (secs : List SectionRec) : Artifacts :=
  secs.foldl processSection emptyArtifacts

/-- The whole pipeline: locate the sections, then build the artifacts. -/
def pipelineOf (doc : Node) : Artifacts :=
  runMain (get_sections doc)

/-! ### Spec-side definitions

These definitions follow the wording of the specification rather than the
source, for the refinement claims that compare the two.
-/

/-- The classifier as claim C2 words it: a header cell with non-empty text
not holding the Cards-options marker, and at least one data cell anywhere in
the first direct row whose upper-cased normalized text is a type token. -/
def claimVariableTable (table : Node) : Bool :=
  match firstRowOf table with
  | none => false
  | some row =>
    match findTag "th" row with
    | none => false
    | some th =>
      let nameText := normalize_text (getTextStrip th)
      decide (nameText ≠ "") && !containsStr nameText "Card\x27s options" &&
        (findAllTag "td" row).any
          (fun td => decide (upperStr (normalize_text (getTextStrip td)) ∈ typeTokens))

/-- The classifier as amended: the data cell examined is the first one. -/
def specVariableTableFirst (table : Node) : Bool :=
  match firstRowOf table with
  | none => false
  | some row =>
    match findTag "th" row, (findAllTag "td" row).head? with
    | some th, some td0 =>
      let nameText := normalize_text (getTextStrip th)
      decide (nameText ≠ "") && !containsStr nameText "Card\x27s options" &&
        decide (upperStr (normalize_text (getTextStrip td0)) ∈ typeTokens)
    | _, _ => false

/-- The section title as the specification words it: the nested tagged span
of the given class, falling back to the normalized heading text. -/
def specTitleOf (h2 : Node) (cls : String) : String :=
  match findTagClass "span" cls h2 with
  | some sp => normalize_text (getTextStrip sp)
  | none => normalize_text (getTextStrip h2)

/-- The section locator body as the specification words it. -/
def specSectionOf (h2 : Node) (anc : List Node) : Option SectionRec :=
  if containsStr (getTextStrip h2) "Namelist:" then
    (anc.find? (isTag "table")).map
      (fun t => { title := specTitleOf h2 "namelist", sectionType := "namelist", table := t })
  else if containsStr (getTextStrip h2) "Card:" then
    (anc.find? (isTag "table")).map
      (fun t => { title := specTitleOf h2 "card", sectionType := "card", table := t })
  else none

/-- The section list as the specification words it: the recognized headings
in document order, each with its nearest enclosing table, the rest skipped. -/
def specGetSections (doc : Node) : List SectionRec :=
  (h2sWithAnc [] doc).filterMap (fun p => specSectionOf p.1 p.2)

/-- First-occurrence de-duplication dropping empty strings, the seen set
threaded explicitly (spec-side description of the flag option pass). -/
def specDedupFlags (seen : List String) : List String → List String
  | [] => []
  | v :: vs =>
    if v = "" ∨ v ∈ seen then specDedupFlags seen vs
    else v :: specDedupFlags (seen ++ [v]) vs

/-- First-occurrence de-duplication against a seen set (spec-side
description of the quoted literal pass). -/
def specDedupQuoted (seen : List String) : List String → List String
  | [] => []
  | v :: vs =>
    if v ∈ seen then specDedupQuoted seen vs
    else v :: specDedupQuoted (seen ++ [v]) vs

/-- The option list of a section entry's card options (empty when absent). -/
def cardOptionsListOf (e : SectionEntry) : List String :=
  match e.cardOptions with
  | some co => co.options
  | none => []

/-! ### Concrete input nodes used by counterexamples and witnesses -/

/-- A first row whose first data cell is not a type token while the second
one is: the source classifier rejects it, the claimed rule accepts it. -/
def c2table : Node :=
  .elem "table" []
    [.elem "tr" []
      [.elem "th" [] [.text "degauss"],
       .elem "td" [] [.text "foo"],
       .elem "td" [] [.text "INTEGER"]]]

/-- A well-formed REAL variable table named with a parenthesis. -/
def celldmTable : Node :=
  .elem "table" []
    [.elem "tr" []
      [.elem "th" [] [.text "celldm(1)"],
       .elem "td" [] [.text " REAL "]],
     .elem "tr" []
      [.elem "td" [] [.elem "pre" [] [.text "Crystallographic constant in bohr units."]]]]

/-- A well-formed INTEGER variable table without parentheses in the name. -/
def ibravTable : Node :=
  .elem "table" []
    [.elem "tr" []
      [.elem "th" [] [.text "ibrav"],
       .elem "td" [] [.text " INTEGER"]],
     .elem "tr" []
      [.elem "td" [] [.elem "i" [] [.text "Default:"]],
       .elem "td" [] [.text " 0 "]],
     .elem "tr" []
      [.elem "td" []
        [.elem "pre" []
          [.text "Bravais-lattice index. if ibrav = 0, lattice vectors are read explicitly."]]]]

/-! ### Claim C1 -/

/-- C1, counterexample.  The description used only if noncolin is set does
contain the claimed phrase, yet the derived validWhen list is exactly
the string is == .TRUE. — the leftmost match of the identifier-set rule of
_normalize_condition captures the word is — so the claimed condition
noncolin == .TRUE. is not derived. -/
theorem C1_counterexample :
    containsStr "used only if noncolin is set" "used only if noncolin is set" = true ∧
    extract_constraints (some "used only if noncolin is set") =
      some { requires := [], conflicts := [], implies := [],
             validWhen := ["is == .TRUE."] } ∧
    "noncolin == .TRUE." ∉
      validWhenOf (extract_constraints (some "used only if noncolin is set")) := by
  refine ⟨by decide, by decide, by decide⟩

/-- C1, as amended: for the description used only if noncolin is set the
extractor derives exactly the condition is == .TRUE. (not
noncolin == .TRUE.), and for only if ibrav == 0 it derives exactly
ibrav == 0; each derived string appears in the validWhen list. -/
theorem C1_theorem :
    validWhenOf (extract_constraints (some "used only if noncolin is set")) =
      ["is == .TRUE."] ∧
    "is == .TRUE." ∈
      validWhenOf (extract_constraints (some "used only if noncolin is set")) ∧
    validWhenOf (extract_constraints (some "only if ibrav == 0")) = ["ibrav == 0"] ∧
    "ibrav == 0" ∈ validWhenOf (extract_constraints (some "only if ibrav == 0")) := by
  refine ⟨by decide, by decide, by decide, by decide⟩

/-! ### Claim C2 -/

/-- C2, counterexample.  A first row whose header cell is fine and whose
second data cell reads INTEGER satisfies the claimed at-least-one-data-cell
rule, but the source checks only the first data cell, classifies the table
as not a variable table, and produces no Variable. -/
theorem C2_counterexample :
    claimVariableTable c2table = true ∧
    is_variable_table c2table = false ∧
    parse_variable_table c2table "SYSTEM" "namelist" = none := by
  refine ⟨by decide, by decide, by decide⟩

/-- C2, as amended: a table is classified as a Variable table if and only if
its first direct row has a header cell with non-empty text not holding the
Cards-options marker, at least one data cell, and the first data cell's
normalized upper-cased text is exactly one of the four type tokens; every
table failing this test yields no Variable. -/
theorem C2_theorem :
    (∀ t : Node, is_variable_table t = specVariableTableFirst t) ∧
    (∀ (t : Node) (st ty : String), is_variable_table t = false →
      parse_variable_table t st ty = none) := by
  constructor
  · intro t
    cases hr : firstRowOf t with
    | none => simp [is_variable_table, specVariableTableFirst, hr]
    | some row =>
      cases hth : findTag "th" row with
      | none => simp [is_variable_table, specVariableTableFirst, hr, hth]
      | some th =>
        cases htd : findAllTag "td" row with
        | nil => simp [is_variable_table, specVariableTableFirst, hr, hth, htd]
        | cons td0 rest =>
          by_cases h1 : normalize_text (getTextStrip th) = ""
          · simp [is_variable_table, specVariableTableFirst, rawTypeText, hr, hth, htd, h1]
          · by_cases h2 :
              containsStr (normalize_text (getTextStrip th)) "Card\x27s options" = true
            · simp [is_variable_table, specVariableTableFirst, rawTypeText,
                    hr, hth, htd, h1, h2]
            · simp [is_variable_table, specVariableTableFirst, rawTypeText,
                    hr, hth, htd, h1, h2]
  · intro t st ty h
    simp [parse_variable_table, h]

/-- C2, witness for the amended theorem: its classifier equality applied at
the counterexample table, and the no-Variable part applied at a plain text
node, which no classifier accepts. -/
theorem C2_witness :
    is_variable_table c2table = specVariableTableFirst c2table ∧
    parse_variable_table (.text "no tables here") "A" "B" = none :=
  ⟨C2_theorem.1 c2table,
   C2_theorem.2 (.text "no tables here") "A" "B" (by decide)⟩

/-! ### Claim C3 -/

/-- C3, counterexample.  The description within Ry does contain the
substring in Ry, but the in-token pattern requires a word boundary before
the word in, so no candidate arises and the extractor returns none rather
than Ry. -/
theorem C3_counterexample :
    containsStr "within Ry" "in Ry" = true ∧
    extract_units (some "within Ry") = none := by
  refine ⟨by decide, by decide⟩

/-- C3, as amended: a description whose only candidate is the marker itself
yields the canonical symbol — in Ry gives Ry, in eV gives eV, (Kelvin)
gives K — and in general the candidates are tried in the fixed order (first
parenthesized group, then the in-token occurrences, then the units-of
occurrences) with the first successfully normalizing candidate winning;
bare substring containment of in Ry is not sufficient. -/
theorem C3_theorem :
    extract_units (some "in Ry") = some "Ry" ∧
    extract_units (some "in eV") = some "eV" ∧
    extract_units (some "(Kelvin)") = some "K" ∧
    (∀ d : String, d ≠ "" →
      extract_units (some d) = firstNorm (parenCands d ++ inCands d ++ ofCands d)) ∧
    (∀ (c : String) (cs : List String) (u : String),
      normalize_unit c = some u → firstNorm (c :: cs) = some u) ∧
    (∀ (c : String) (cs : List String),
      normalize_unit c = none → firstNorm (c :: cs) = firstNorm cs) := by
  refine ⟨by decide, by decide, by decide, ?_, ?_, ?_⟩
  · intro d hd
    simp [extract_units, hd]
  · intro c cs u h
    simp [firstNorm, h]
  · intro c cs h
    simp [firstNorm, h]

/-- C3, witness for the amended theorem: its conditional parts applied at
the description in Ry and at the candidate Ry. -/
theorem C3_witness :
    extract_units (some "in Ry") =
      firstNorm (parenCands "in Ry" ++ inCands "in Ry" ++ ofCands "in Ry") ∧
    firstNorm ["Ry"] = some "Ry" ∧
    firstNorm ["x y", "Ry"] = firstNorm ["Ry"] :=
  ⟨C3_theorem.2.2.2.1 "in Ry" (by decide),
   C3_theorem.2.2.2.2.1 "Ry" [] "Ry" (by decide),
   C3_theorem.2.2.2.2.2 "x y" ["Ry"] (by decide)⟩

/-! ### Claim C6 -/

/-- C6: the two sample descriptions format as the claim states, and the four
range patterns are tried in the source order with the first match deciding
the result — a direct inequality formats as lo less-than x less-than hi and
the other three notations format as lo..hi. -/
theorem C6_theorem :
    extract_range (some "must be 0.0 < alpha < 1.0") = some "0.0 < x < 1.0" ∧
    extract_range (some "from -5 to 5") = some "-5..5" ∧
    (∀ (d : String) (m : REMatch), d ≠ "" →
      reSearch d.data reRangeIneq = some m →
      extract_range (some d) = some (capGet m.2.2 1 ++ " < x < " ++ capGet m.2.2 2)) ∧
    (∀ (d : String) (m : REMatch), d ≠ "" →
      reSearch d.data reRangeIneq = none →
      reSearch d.data reRangeBracket = some m →
      extract_range (some d) = some (capGet m.2.2 2 ++ ".." ++ capGet m.2.2 3)) ∧
    (∀ (d : String) (m : REMatch), d ≠ "" →
      reSearch d.data reRangeIneq = none →
      reSearch d.data reRangeBracket = none →
      reSearch d.data reRangeBetween = some m →
      extract_range (some d) = some (capGet m.2.2 1 ++ ".." ++ capGet m.2.2 2)) ∧
    (∀ (d : String) (m : REMatch), d ≠ "" →
      reSearch d.data reRangeIneq = none →
      reSearch d.data reRangeBracket = none →
      reSearch d.data reRangeBetween = none →
      reSearch d.data reRangeFromTo = some m →
      extract_range (some d) = some (capGet m.2.2 1 ++ ".." ++ capGet m.2.2 2)) := by
  refine ⟨by decide, by decide, ?_, ?_, ?_, ?_⟩
  · intro d m hd h1
    simp [extract_range, hd, h1]
  · intro d m hd h1 h2
    simp [extract_range, hd, h1, h2]
  · intro d m hd h1 h2 h3
    simp [extract_range, hd, h1, h2, h3]
  · intro d m hd h1 h2 h3 h4
    simp [extract_range, hd, h1, h2, h3, h4]

/-- C6, witness: the conditional parts applied at the two sample
descriptions with their concrete matches. -/
theorem C6_witness :
    extract_range (some "must be 0.0 < alpha < 1.0") =
      some (capGet [(2, ['1', '.', '0']), (1, ['0', '.', '0'])] 1 ++ " < x < " ++
            capGet [(2, ['1', '.', '0']), (1, ['0', '.', '0'])] 2) ∧
    extract_range (some "from -5 to 5") =
      some (capGet [(2, ['5']), (1, ['-', '5'])] 1 ++ ".." ++
            capGet [(2, ['5']), (1, ['-', '5'])] 2) :=
  ⟨C6_theorem.2.2.1 "must be 0.0 < alpha < 1.0"
      (8, 25, [(2, ['1', '.', '0']), (1, ['0', '.', '0'])]) (by decide) (by decide),
   C6_theorem.2.2.2.2.2 "from -5 to 5"
      (0, 12, [(2, ['5']), (1, ['-', '5'])]) (by decide) (by decide) (by decide)
      (by decide) (by decide)⟩

/-! ### Claim C4 -/

/-- The flag pass of _extract_options is first-occurrence de-duplication of
the non-empty values, relative to a starting accumulator. -/
theorem foldl_addFlag_eq (l : List String) :
    ∀ acc : List String, l.foldl addFlag acc = acc ++ specDedupFlags acc l := by
  induction l with
  | nil => intro acc; simp [specDedupFlags]
  | cons v vs ih =>
    intro acc
    by_cases h : v = "" ∨ v ∈ acc
    · simp only [List.foldl_cons, addFlag, if_pos h, specDedupFlags, ih]
    · simp only [List.foldl_cons, addFlag, if_neg h, specDedupFlags, ih,
                 List.append_assoc, List.singleton_append]

/-- The quoted pass of _extract_options is first-occurrence de-duplication
against the accumulated seen set. -/
theorem foldl_addQuoted_eq (l : List String) :
    ∀ acc : List String, l.foldl addQuoted acc = acc ++ specDedupQuoted acc l := by
  induction l with
  | nil => intro acc; simp [specDedupQuoted]
  | cons v vs ih =>
    intro acc
    by_cases h : v ∈ acc
    · simp only [List.foldl_cons, addQuoted, if_pos h, specDedupQuoted, ih]
    · simp only [List.foldl_cons, addQuoted, if_neg h, specDedupQuoted, ih,
                 List.append_assoc, List.singleton_append]

/-- The flag pass preserves freedom from duplicates. -/
theorem nodup_foldl_addFlag (l : List String) :
    ∀ acc : List String, acc.Nodup → (l.foldl addFlag acc).Nodup := by
  induction l with
  | nil => intro acc h; simpa
  | cons v vs ih =>
    intro acc h
    apply ih
    unfold addFlag
    split
    · exact h
    · rename_i hcond
      push_neg at hcond
      simp [List.nodup_append, h, hcond.2]

/-- The quoted pass preserves freedom from duplicates. -/
theorem nodup_foldl_addQuoted (l : List String) :
    ∀ acc : List String, acc.Nodup → (l.foldl addQuoted acc).Nodup := by
  induction l with
  | nil => intro acc h; simpa
  | cons v vs ih =>
    intro acc h
    apply ih
    unfold addQuoted
    split
    · exact h
    · rename_i hcond
      simp [List.nodup_append, h, hcond]

/-- C4: the option list never repeats a value, and it is exactly the
first-occurrence de-duplicated flag span texts in document order followed by
the quoted literals of the description that are not already present. -/
theorem C4_theorem :
    (∀ (t : Node) (d : Option String), (extract_options t d).Nodup) ∧
    (∀ t : Node, extract_options t none = specDedupFlags [] (flagSpanValues t)) ∧
    (∀ (t : Node) (d : String), d ≠ "" →
      extract_options t (some d) =
        specDedupFlags [] (flagSpanValues t) ++
          specDedupQuoted (specDedupFlags [] (flagSpanValues t))
            (quotedLiterals d)) := by
  refine ⟨?_, ?_, ?_⟩
  · intro t d
    cases d with
    | none =>
      simpa [extract_options] using
        nodup_foldl_addFlag (flagSpanValues t) [] List.nodup_nil
    | some s =>
      by_cases h : s = ""
      · simpa [extract_options, h] using
          nodup_foldl_addFlag (flagSpanValues t) [] List.nodup_nil
      · simpa [extract_options, h] using
          nodup_foldl_addQuoted (quotedLiterals s) _
            (nodup_foldl_addFlag (flagSpanValues t) [] List.nodup_nil)
  · intro t
    simpa [extract_options] using foldl_addFlag_eq (flagSpanValues t) []
  · intro t d hd
    have h1 : (flagSpanValues t).foldl addFlag [] =
        specDedupFlags [] (flagSpanValues t) := by
      simpa using foldl_addFlag_eq (flagSpanValues t) []
    simp only [extract_options, if_neg hd, h1]
    exact foldl_addQuoted_eq (quotedLiterals d) _

/-- A table with a repeated flag span, for the C4 witness. -/
def optTable : Node :=
  .elem "table" []
    [.elem "span" ["flag"] [.text "smearing"],
     .elem "span" ["flag"] [.text "smearing"],
     .elem "span" ["flag"] [.text "gaussian"]]

/-- C4, witness: the description part applied at a concrete table and
description with a repeated flag and two quoted literals. -/
theorem C4_witness :
    extract_options optTable (some "use \x27gaussian\x27 or \x27mp\x27") =
      specDedupFlags [] (flagSpanValues optTable) ++
        specDedupQuoted (specDedupFlags [] (flagSpanValues optTable))
          (quotedLiterals "use \x27gaussian\x27 or \x27mp\x27") :=
  C4_theorem.2.2 optTable "use \x27gaussian\x27 or \x27mp\x27" (by decide)

/-! ### Claim C5 -/

/-- Case analysis of _map_type: the produced type is one of the five, it is
Array exactly when the name holds a parenthesis, and with no parenthesis the
recognized token decides the base type. -/
theorem map_type_cases (tok name mt : String) (h : map_type tok name = some mt) :
    mt ∈ ["String", "Integer", "Real", "Logical", "Array"] ∧
    (mt = "Array" ↔ (containsStr name "(" || containsStr name ")") = true) ∧
    ((containsStr name "(" || containsStr name ")") = false →
      (upperStr tok = "CHARACTER" → mt = "String") ∧
      (upperStr tok = "INTEGER" → mt = "Integer") ∧
      (upperStr tok = "REAL" → mt = "Real") ∧
      (upperStr tok = "LOGICAL" → mt = "Logical")) := by
  unfold map_type at h
  by_cases hp : (containsStr name "(" || containsStr name ")") = true
  · by_cases c1 : containsStr (stripWsStr (upperStr tok)) "CHARACTER" = true
    · simp only [c1, if_true, hp] at h
      cases h
      refine ⟨by decide, by simp [hp], fun hnp => ?_⟩
      rw [hp] at hnp; cases hnp
    · by_cases c2 : containsStr (stripWsStr (upperStr tok)) "INTEGER" = true
      · simp only [c1, c2, if_false, if_true, Bool.false_eq_true, hp] at h
        cases h
        refine ⟨by decide, by simp [hp], fun hnp => ?_⟩
        rw [hp] at hnp; cases hnp
      · by_cases c3 : containsStr (stripWsStr (upperStr tok)) "REAL" = true
        · simp only [c1, c2, c3, if_false, if_true, Bool.false_eq_true, hp] at h
          cases h
          refine ⟨by decide, by simp [hp], fun hnp => ?_⟩
          rw [hp] at hnp; cases hnp
        · by_cases c4 : containsStr (stripWsStr (upperStr tok)) "LOGICAL" = true
          · simp only [c1, c2, c3, c4, if_false, if_true, Bool.false_eq_true, hp] at h
            cases h
            refine ⟨by decide, by simp [hp], fun hnp => ?_⟩
            rw [hp] at hnp; cases hnp
          · simp [c1, c2, c3, c4] at h
  · by_cases c1 : containsStr (stripWsStr (upperStr tok)) "CHARACTER" = true
    · simp only [c1, if_true, hp, if_false] at h
      cases h
      refine ⟨by decide, by simp [hp], fun hnp =>
        ⟨fun hc => rfl, fun hc => ?_, fun hc => ?_, fun hc => ?_⟩⟩
      all_goals rw [hc] at c1; exact absurd c1 (by decide)
    · by_cases c2 : containsStr (stripWsStr (upperStr tok)) "INTEGER" = true
      · simp only [c1, c2, if_false, if_true, Bool.false_eq_true, hp] at h
        cases h
        refine ⟨by decide, by simp [hp], fun hnp =>
          ⟨fun hc => ?_, fun hc => rfl, fun hc => ?_, fun hc => ?_⟩⟩
        · rw [hc] at c1; exact absurd (by decide) c1
        · rw [hc] at c2; exact absurd c2 (by decide)
        · rw [hc] at c2; exact absurd c2 (by decide)
      · by_cases c3 : containsStr (stripWsStr (upperStr tok)) "REAL" = true
        · simp only [c1, c2, c3, if_false, if_true, Bool.false_eq_true, hp] at h
          cases h
          refine ⟨by decide, by simp [hp], fun hnp =>
            ⟨fun hc => ?_, fun hc => ?_, fun hc => rfl, fun hc => ?_⟩⟩
          · rw [hc] at c1; exact absurd (by decide) c1
          · rw [hc] at c2; exact absurd (by decide) c2
          · rw [hc] at c3; exact absurd c3 (by decide)
        · by_cases c4 : containsStr (stripWsStr (upperStr tok)) "LOGICAL" = true
          · simp only [c1, c2, c3, c4, if_false, if_true, Bool.false_eq_true, hp] at h
            cases h
            refine ⟨by decide, by simp [hp], fun hnp =>
              ⟨fun hc => ?_, fun hc => ?_, fun hc => ?_, fun hc => rfl⟩⟩
            · rw [hc] at c1; exact absurd (by decide) c1
            · rw [hc] at c2; exact absurd (by decide) c2
            · rw [hc] at c3; exact absurd (by decide) c3
          · simp [c1, c2, c3, c4] at h

/-- C5: every produced Variable has one of the five types, the type is Array
exactly when the raw name holds a parenthesis, an unparenthesized name gets
the base type of its recognized token, and an unrecognized token yields no
Variable at all. -/
theorem C5_theorem :
    (∀ (t : Node) (st ty : String) (v : VarInfo),
      parse_variable_table t st ty = some v →
      v.type ∈ ["String", "Integer", "Real", "Logical", "Array"] ∧
      (v.type = "Array" ↔ (containsStr v.name "(" || containsStr v.name ")") = true) ∧
      ((containsStr v.name "(" || containsStr v.name ")") = false →
        ∀ tok : String, rawTypeText t = some tok →
          (upperStr tok = "CHARACTER" → v.type = "String") ∧
          (upperStr tok = "INTEGER" → v.type = "Integer") ∧
          (upperStr tok = "REAL" → v.type = "Real") ∧
          (upperStr tok = "LOGICAL" → v.type = "Logical"))) ∧
    (∀ (t : Node) (st ty name tok : String),
      varNameOf t = some name → rawTypeText t = some tok →
      map_type tok name = none → parse_variable_table t st ty = none) := by
  constructor
  · intro t st ty v h
    unfold parse_variable_table at h
    split at h
    · split at h
      · rename_i name typeText hname htype
        split at h
        · exact absurd h (by simp)
        · rename_i mt hmt
          have hv := Option.some.inj h
          subst hv
          have hc := map_type_cases typeText name mt hmt
          refine ⟨hc.1, hc.2.1, fun hnp tok htok => ?_⟩
          have : tok = typeText := by
            rw [htype] at htok
            exact (Option.some.inj htok).symm
          subst this
          exact hc.2.2 hnp
      · exact absurd h (by simp)
    · exact absurd h (by simp)
  · intro t st ty name tok hname htok hmap
    unfold parse_variable_table
    split
    · rw [hname, htok]
      simp [hmap]
    · rfl

/-- The parsed record of the celldm table, for the C5 witness. -/
def vCelldm : VarInfo :=
  { name := "celldm(1)", sectionName := "SYSTEM", sectionType := "namelist",
    type := "Array", default := none,
    description := some "Crystallographic constant in bohr units.",
    options := [], units := some "bohr", range := none, exampleVal := none,
    since := none, notes := none, constraints := none,
    rawText := some "Crystallographic constant in bohr units." }

/-- C5, witness: the parenthesized REAL table parses to an Array variable,
and a first-cell token that _map_type rejects yields no variable. -/
theorem C5_witness :
    vCelldm.type ∈ ["String", "Integer", "Real", "Logical", "Array"] ∧
    (vCelldm.type = "Array" ↔
      (containsStr vCelldm.name "(" || containsStr vCelldm.name ")") = true) ∧
    parse_variable_table c2table "S" "x" = none :=
  ⟨(C5_theorem.1 celldmTable "SYSTEM" "namelist" vCelldm (by decide)).1,
   (C5_theorem.1 celldmTable "SYSTEM" "namelist" vCelldm (by decide)).2.1,
   C5_theorem.2 c2table "S" "x" "degauss" "foo" (by decide) (by decide) (by decide)⟩

/-! ### Claim C7 -/

/-- The section built from one heading is the same under the source
formulation and the specification formulation. -/
theorem sectionOfH2_eq_spec (h2 : Node) (anc : List Node) :
    sectionOfH2 h2 anc = specSectionOf h2 anc := by
  unfold sectionOfH2 specSectionOf specTitleOf
  by_cases h1 : containsStr (getTextStrip h2) "Namelist:" = true
  · cases hs : findTagClass "span" "namelist" h2 with
    | none =>
      cases ht : anc.find? (isTag "table") with
      | none => simp [h1, hs, ht]
      | some tb => simp [h1, hs, ht]
    | some sp =>
      cases ht : anc.find? (isTag "table") with
      | none => simp [h1, hs, ht]
      | some tb => simp [h1, hs, ht]
  · by_cases h2c : containsStr (getTextStrip h2) "Card:" = true
    · cases hs : findTagClass "span" "card" h2 with
      | none =>
        cases ht : anc.find? (isTag "table") with
        | none => simp [h1, h2c, hs, ht]
        | some tb => simp [h1, h2c, hs, ht]
      | some sp =>
        cases ht : anc.find? (isTag "table") with
        | none => simp [h1, h2c, hs, ht]
        | some tb => simp [h1, h2c, hs, ht]
    · simp [h1, h2c]

/-- C7: the section locator of the source equals, on every document, its
specification description — headings are recognized only by the Namelist: or
Card: markers, titles come from the tagged span with fallback to the
normalized heading text, the content region is the nearest enclosing table,
headings with no enclosing table are skipped, and sections keep document
order. -/
theorem C7_theorem : ∀ doc : Node, get_sections doc = specGetSections doc := by
  intro doc
  unfold get_sections specGetSections
  congr 1
  funext p
  exact sectionOfH2_eq_spec p.1 p.2

/-! ### Claim C9 -/

/-- A string append whose right part is non-empty is never empty. -/
theorem append_ne_empty_right (a b : String) (hb : 0 < b.length) :
    a ++ b ≠ "" := by
  intro h
  have hl := congrArg String.length h
  simp only [String.length_append] at hl
  have : ("" : String).length = 0 := rfl
  omega

/-- C9: a namelist snippet body is exactly the three claimed lines; a card
snippet body is exactly two lines, the first the title suffixed with the
brace-delimited option alternation exactly when card options exist, the
second the generic placeholder. -/
theorem C9_theorem :
    ∀ (sec : SectionRec) (e : SectionEntry),
    (sec.sectionType = "namelist" →
      (snippetOf sec e).body =
        ["&" ++ sec.title, "  $\x7b1:var\x7d = $\x7b2:value\x7d", "/"] ∧
      (snippetOf sec e).body.length = 3) ∧
    (sec.sectionType = "card" →
      (snippetOf sec e).body.length = 2 ∧
      (snippetOf sec e).body = [sec.title ++ optHintOf e, "$\x7b1:...\x7d"] ∧
      (optHintOf e ≠ "" ↔ cardOptionsListOf e ≠ []) ∧
      (cardOptionsListOf e ≠ [] →
        optHintOf e =
          " \x7b " ++ String.intercalate " | " (cardOptionsListOf e) ++ " \x7d")) := by
  intro sec e
  constructor
  · intro h
    constructor
    · simp [snippetOf, h]
    · simp [snippetOf, h]
  · intro h
    have hn : ¬sec.sectionType = "namelist" := by rw [h]; decide
    refine ⟨by simp [snippetOf, hn], by simp [snippetOf, hn], ?_, ?_⟩
    · unfold optHintOf cardOptionsListOf
      cases hco : e.cardOptions with
      | none => simp
      | some co =>
        by_cases ho : co.options = []
        · simp [ho]
        · simp only [ho, if_neg ho, if_false]
          constructor
          · intro _; exact ho
          · intro _
            exact append_ne_empty_right
              (" \x7b " ++ String.intercalate " | " co.options) " \x7d" (by decide)
    · intro hne
      unfold optHintOf cardOptionsListOf at *
      cases hco : e.cardOptions with
      | none => rw [hco] at hne; exact absurd rfl hne
      | some co =>
        rw [hco] at hne
        simp only [if_neg hne]

/-- A namelist section record for the C9 witness (content table unused). -/
def secNl : SectionRec := { title := "CONTROL", sectionType := "namelist", table := .text "" }

/-- A card section record for the C9 witness. -/
def secCd : SectionRec := { title := "OCCUPATIONS", sectionType := "card", table := .text "" }

/-- A card section entry with two options, for the C9 witness. -/
def eCd : SectionEntry :=
  { sectionType := "card", varEntries := [],
    cardOptions := some { options := ["smearing", "fixed"], default := none } }

/-- An empty namelist section entry, for the C9 witness. -/
def eNl : SectionEntry :=
  { sectionType := "namelist", varEntries := [], cardOptions := none }

/-- C9, witness: the theorem applied at a concrete namelist section and at a
concrete card section with options. -/
theorem C9_witness :
    (snippetOf secNl eNl).body =
      ["&" ++ secNl.title, "  $\x7b1:var\x7d = $\x7b2:value\x7d", "/"] ∧
    (snippetOf secCd eCd).body = [secCd.title ++ optHintOf eCd, "$\x7b1:...\x7d"] ∧
    optHintOf eCd =
      " \x7b " ++ String.intercalate " | " (cardOptionsListOf eCd) ++ " \x7d" :=
  ⟨((C9_theorem secNl eNl).1 rfl).1,
   ((C9_theorem secCd eCd).2 rfl).2.1,
   ((C9_theorem secCd eCd).2 rfl).2.2.2 (by decide)⟩

/-! ### Dictionary lemmas shared by the artifact claims -/

/-- Looking up the freshly inserted key gives the inserted value. -/
theorem alookup_dinsert_self {α : Type} (k : String) (v : α)
    (m : List (String × α)) : alookup k (dinsert k v m) = some v := by
  induction m with
  | nil => simp [dinsert, alookup]
  | cons q rest ih =>
    obtain ⟨k2, v2⟩ := q
    by_cases h : k2 = k
    · simp [dinsert, alookup, h]
    · simp [dinsert, alookup, h, ih]

/-- Insertion at a different key does not change a lookup. -/
theorem alookup_dinsert_ne {α : Type} (k k2 : String) (v : α)
    (m : List (String × α)) (h : ¬k2 = k) :
    alookup k (dinsert k2 v m) = alookup k m := by
  have h2 : ¬k = k2 := fun hh => h hh.symm
  induction m with
  | nil => simp [dinsert, alookup, h, h2]
  | cons q rest ih =>
    obtain ⟨k3, v3⟩ := q
    by_cases h3 : k3 = k2
    · subst h3
      simp [dinsert, alookup, h, h2]
    · by_cases h4 : k3 = k
      · simp [dinsert, alookup, h3, h4, h2]
      · simp [dinsert, alookup, h3, h4, ih]

/-- A lookup is defined after an insertion exactly when it hits the new key
or was already defined. -/
theorem alookup_dinsert_notNone {α : Type} (k k2 : String) (v : α)
    (m : List (String × α)) :
    (alookup k (dinsert k2 v m) ≠ none) ↔ (k = k2 ∨ alookup k m ≠ none) := by
  by_cases h : k = k2
  · subst h
    simp [alookup_dinsert_self]
  · rw [alookup_dinsert_ne k k2 v m (fun hh => h hh.symm)]
    simp [h]

/-- Membership after an insertion: the new pair or an old one. -/
theorem mem_dinsert {α : Type} (q : String × α) (k : String) (v : α)
    (m : List (String × α)) (h : q ∈ dinsert k v m) : q = (k, v) ∨ q ∈ m := by
  induction m with
  | nil => simpa [dinsert] using h
  | cons r rest ih =>
    obtain ⟨k3, v3⟩ := r
    by_cases h3 : k3 = k
    · simp only [dinsert, if_pos h3] at h
      rcases List.mem_cons.mp h with h | h
      · exact Or.inl h
      · exact Or.inr (List.mem_cons_of_mem _ h)
    · simp only [dinsert, if_neg h3] at h
      rcases List.mem_cons.mp h with h | h
      · exact Or.inr (by simp [h])
      · rcases ih h with h | h
        · exact Or.inl h
        · exact Or.inr (List.mem_cons_of_mem _ h)

/-- A successful lookup comes from a member pair. -/
theorem alookup_mem {α : Type} (k : String) (v : α) (m : List (String × α))
    (h : alookup k m = some v) : (k, v) ∈ m := by
  induction m with
  | nil => simp [alookup] at h
  | cons q rest ih =>
    obtain ⟨k2, v2⟩ := q
    by_cases h2 : k2 = k
    · subst h2
      simp only [alookup, if_pos rfl] at h
      cases h
      exact List.mem_cons_self _ _
    · simp only [alookup, if_neg h2] at h
      exact List.mem_cons_of_mem _ (ih h)

/-! ### Field lemmas for the main loop -/

/-- The per-variable writes do not touch completion.json sections. -/
theorem processVar_sections (title : String) (a : Artifacts) (p : String × VarInfo) :
    (processVar title a p).sections = a.sections := by
  unfold processVar
  cases hc : p.2.constraints <;> simp only [hc] <;> split <;> rfl

/-- The per-variable writes do not touch snippets.json. -/
theorem processVar_snippets (title : String) (a : Artifacts) (p : String × VarInfo) :
    (processVar title a p).snippets = a.snippets := by
  unfold processVar
  cases hc : p.2.constraints <;> simp only [hc] <;> split <;> rfl

/-- The per-variable writes do not touch the cards map. -/
theorem processVar_diagCards (title : String) (a : Artifacts) (p : String × VarInfo) :
    (processVar title a p).diagCards = a.diagCards := by
  unfold processVar
  cases hc : p.2.constraints <;> simp only [hc] <;> split <;> rfl

/-- The constraints.json write of one variable: an insertion exactly when
the constraint set is present. -/
theorem processVar_constraints (title : String) (a : Artifacts) (p : String × VarInfo) :
    (processVar title a p).constraintVariables =
      match p.2.constraints with
      | some cs => dinsert (title ++ "." ++ p.1) cs a.constraintVariables
      | none => a.constraintVariables := by
  unfold processVar
  cases hc : p.2.constraints <;> simp only [hc] <;> split <;> rfl

/-- The ranges.json write of one variable: an insertion exactly when range
or units is truthy. -/
theorem processVar_ranges (title : String) (a : Artifacts) (p : String × VarInfo) :
    (processVar title a p).rangeVariables =
      if (optTruthy p.2.range || optTruthy p.2.units) = true then
        dinsert (title ++ "." ++ p.1)
          { range := p.2.range, units := p.2.units } a.rangeVariables
      else a.rangeVariables := by
  unfold processVar
  cases hc : p.2.constraints <;> simp only [hc] <;> split <;> rfl

/-- The variable loop does not touch completion.json sections. -/
theorem processVars_sections (title : String) (vars : List (String × VarInfo)) :
    ∀ a, (processVars title a vars).sections = a.sections := by
  induction vars with
  | nil => intro a; rfl
  | cons p rest ih =>
    intro a
    rw [show processVars title a (p :: rest) =
          processVars title (processVar title a p) rest from rfl,
        ih, processVar_sections]

/-- The variable loop does not touch snippets.json. -/
theorem processVars_snippets (title : String) (vars : List (String × VarInfo)) :
    ∀ a, (processVars title a vars).snippets = a.snippets := by
  induction vars with
  | nil => intro a; rfl
  | cons p rest ih =>
    intro a
    rw [show processVars title a (p :: rest) =
          processVars title (processVar title a p) rest from rfl,
        ih, processVar_snippets]

/-- The variable loop does not touch the cards map. -/
theorem processVars_diagCards (title : String) (vars : List (String × VarInfo)) :
    ∀ a, (processVars title a vars).diagCards = a.diagCards := by
  induction vars with
  | nil => intro a; rfl
  | cons p rest ih =>
    intro a
    rw [show processVars title a (p :: rest) =
          processVars title (processVar title a p) rest from rfl,
        ih, processVar_diagCards]

/-- The cards write does not touch completion.json sections. -/
theorem updCards_sections (a : Artifacts) (sec : SectionRec) (entry : SectionEntry) :
    (updCards a sec entry).sections = a.sections := by
  unfold updCards
  split
  · split <;> rfl
  · rfl

/-- The cards write does not touch snippets.json. -/
theorem updCards_snippets (a : Artifacts) (sec : SectionRec) (entry : SectionEntry) :
    (updCards a sec entry).snippets = a.snippets := by
  unfold updCards
  split
  · split <;> rfl
  · rfl

/-- The cards write does not touch constraints.json. -/
theorem updCards_constraints (a : Artifacts) (sec : SectionRec) (entry : SectionEntry) :
    (updCards a sec entry).constraintVariables = a.constraintVariables := by
  unfold updCards
  split
  · split <;> rfl
  · rfl

/-- The cards write does not touch ranges.json. -/
theorem updCards_ranges (a : Artifacts) (sec : SectionRec) (entry : SectionEntry) :
    (updCards a sec entry).rangeVariables = a.rangeVariables := by
  unfold updCards
  split
  · split <;> rfl
  · rfl

/-- The cards map write, characterized. -/
theorem updCards_diagCards (a : Artifacts) (sec : SectionRec) (entry : SectionEntry) :
    (updCards a sec entry).diagCards =
      if sec.sectionType = "card" then
        match entry.cardOptions with
        | some co => dinsert sec.title co a.diagCards
        | none => a.diagCards
      else a.diagCards := by
  unfold updCards
  split
  · split <;> rfl
  · rfl

/-- One section loop iteration overwrites its title in completion.json. -/
theorem processSection_sections (a : Artifacts) (sec : SectionRec) :
    (processSection a sec).sections =
      dinsert sec.title (sectionEntryOf sec) a.sections := by
  simp only [processSection]
  rw [processVars_sections]
  dsimp only
  rw [updCards_sections]

/-- One section loop iteration overwrites its title in snippets.json. -/
theorem processSection_snippets (a : Artifacts) (sec : SectionRec) :
    (processSection a sec).snippets =
      dinsert sec.title (snippetOf sec (sectionEntryOf sec)) a.snippets := by
  simp only [processSection]
  rw [processVars_snippets]
  dsimp only
  rw [updCards_snippets]

/-- One section loop iteration changes the cards map only through the cards
write. -/
theorem processSection_diagCards (a : Artifacts) (sec : SectionRec) :
    (processSection a sec).diagCards =
      (updCards a sec (sectionEntryOf sec)).diagCards := by
  simp only [processSection]
  rw [processVars_diagCards]

/-- Sections whose titles avoid a key leave its completion.json lookup
unchanged. -/
theorem foldl_sections_skip (secs : List SectionRec) (k : String)
    (h : ∀ s ∈ secs, s.title ≠ k) :
    ∀ a, alookup k ((secs.foldl processSection a).sections) =
      alookup k a.sections := by
  induction secs with
  | nil => intro a; rfl
  | cons s rest ih =>
    intro a
    rw [List.foldl_cons, ih (fun q hq => h q (List.mem_cons_of_mem _ hq)),
        processSection_sections]
    exact alookup_dinsert_ne k s.title _ _ (h s (List.mem_cons_self _ _))

/-- Sections whose titles avoid a key leave its snippets.json lookup
unchanged. -/
theorem foldl_snippets_skip (secs : List SectionRec) (k : String)
    (h : ∀ s ∈ secs, s.title ≠ k) :
    ∀ a, alookup k ((secs.foldl processSection a).snippets) =
      alookup k a.snippets := by
  induction secs with
  | nil => intro a; rfl
  | cons s rest ih =>
    intro a
    rw [List.foldl_cons, ih (fun q hq => h q (List.mem_cons_of_mem _ hq)),
        processSection_snippets]
    exact alookup_dinsert_ne k s.title _ _ (h s (List.mem_cons_self _ _))

/-- Sections whose titles avoid a key leave its cards map lookup unchanged. -/
theorem foldl_diagCards_skip (secs : List SectionRec) (k : String)
    (h : ∀ s ∈ secs, s.title ≠ k) :
    ∀ a, alookup k ((secs.foldl processSection a).diagCards) =
      alookup k a.diagCards := by
  induction secs with
  | nil => intro a; rfl
  | cons s rest ih =>
    intro a
    rw [List.foldl_cons, ih (fun q hq => h q (List.mem_cons_of_mem _ hq)),
        processSection_diagCards, updCards_diagCards]
    split
    · split
      · exact alookup_dinsert_ne k s.title _ _ (h s (List.mem_cons_self _ _))
      · rfl
    · rfl

/-! ### Claim C10 -/

/-- C10: when two located sections carry the same title, the later section's
entry is the one found in completion.json, in snippets.json and — for card
sections with extracted options — in the cards map of diagnostics.json:
last-parsed-wins applies to whole sections. -/
theorem C10_theorem :
    ∀ (pre post : List SectionRec) (s1 s2 : SectionRec),
    s1 ∈ pre → s1.title = s2.title →
    (∀ s ∈ post, s.title ≠ s2.title) →
    alookup s2.title (runMain (pre ++ s2 :: post)).sections =
      some (sectionEntryOf s2) ∧
    alookup s2.title (runMain (pre ++ s2 :: post)).snippets =
      some (snippetOf s2 (sectionEntryOf s2)) ∧
    (∀ co : CardOpts, s2.sectionType = "card" →
      extract_card_options s2.table = some co →
      alookup s2.title (runMain (pre ++ s2 :: post)).diagCards = some co) := by
  intro pre post s1 s2 hmem htitle hpost
  have hr : runMain (pre ++ s2 :: post) =
      post.foldl processSection
        (processSection (pre.foldl processSection emptyArtifacts) s2) := by
    unfold runMain
    rw [List.foldl_append, List.foldl_cons]
  refine ⟨?_, ?_, ?_⟩
  · rw [hr, foldl_sections_skip post s2.title hpost, processSection_sections]
    exact alookup_dinsert_self _ _ _
  · rw [hr, foldl_snippets_skip post s2.title hpost, processSection_snippets]
    exact alookup_dinsert_self _ _ _
  · intro co hcard hco
    have he : (sectionEntryOf s2).cardOptions = some co := by
      unfold sectionEntryOf
      rw [if_pos hcard]
      exact hco
    rw [hr, foldl_diagCards_skip post s2.title hpost, processSection_diagCards,
        updCards_diagCards, if_pos hcard, he]
    exact alookup_dinsert_self _ _ _

/-- First card section table for the C10 witness: options table with one
flag span tpiba. -/
def cardSecTableA : Node :=
  .elem "table" []
    [.elem "table" []
      [.elem "tr" []
        [.elem "th" [] [.text "Card\x27s options: "],
         .elem "td" [] [.elem "span" ["flag"] [.text "tpiba"]]]]]

/-- Second card section table for the C10 witness: flag span crystal. -/
def cardSecTableB : Node :=
  .elem "table" []
    [.elem "table" []
      [.elem "tr" []
        [.elem "th" [] [.text "Card\x27s options: "],
         .elem "td" [] [.elem "span" ["flag"] [.text "crystal"]]]]]

/-- Earlier K_POINTS section, for the C10 witness. -/
def secK1 : SectionRec :=
  { title := "K_POINTS", sectionType := "card", table := cardSecTableA }

/-- Later K_POINTS section, for the C10 witness. -/
def secK2 : SectionRec :=
  { title := "K_POINTS", sectionType := "card", table := cardSecTableB }

/-- C10, witness: with two card sections both titled K_POINTS, the final
artifacts show the later section's entry, snippet and card options. -/
theorem C10_witness :
    alookup "K_POINTS" (runMain [secK1, secK2]).sections =
      some (sectionEntryOf secK2) ∧
    alookup "K_POINTS" (runMain [secK1, secK2]).snippets =
      some (snippetOf secK2 (sectionEntryOf secK2)) ∧
    alookup "K_POINTS" (runMain [secK1, secK2]).diagCards =
      some { options := ["crystal"], default := none } := by
  have h := C10_theorem [secK1] [] secK1 secK2
    (List.mem_singleton.mpr rfl) rfl (fun s hs => absurd hs (List.not_mem_nil s))
  exact ⟨h.1, h.2.1, h.2.2 { options := ["crystal"], default := none } rfl (by decide)⟩

/-! ### Non-emptiness of extracted values -/

/-- A string append whose left part is non-empty is never empty. -/
theorem append_ne_empty_left (a b : String) (ha : 0 < a.length) :
    a ++ b ≠ "" := by
  intro h
  have hl := congrArg String.length h
  simp only [String.length_append] at hl
  have : ("" : String).length = 0 := rfl
  omega

/-- A three-part append around a non-empty middle is never empty. -/
theorem mid_append_ne_empty (a m b : String) (hm : 0 < m.length) :
    a ++ m ++ b ≠ "" := by
  apply append_ne_empty_left
  rw [String.length_append]
  omega

/-- The range extractor never returns the empty string. -/
theorem extract_range_ne_empty (d : Option String) : extract_range d ≠ some "" := by
  unfold extract_range
  cases d with
  | none => simp
  | some s =>
    by_cases hs : s = ""
    · simp [hs]
    · simp only [if_neg hs]
      cases h1 : reSearch s.data reRangeIneq with
      | some m =>
        simp only [ne_eq, Option.some.injEq]
        exact mid_append_ne_empty _ " < x < " _ (by decide)
      | none =>
        cases h2 : reSearch s.data reRangeBracket with
        | some m =>
          simp only [ne_eq, Option.some.injEq]
          exact mid_append_ne_empty _ ".." _ (by decide)
        | none =>
          cases h3 : reSearch s.data reRangeBetween with
          | some m =>
            simp only [ne_eq, Option.some.injEq]
            exact mid_append_ne_empty _ ".." _ (by decide)
          | none =>
            cases h4 : reSearch s.data reRangeFromTo with
            | some m =>
              simp only [ne_eq, Option.some.injEq]
              exact mid_append_ne_empty _ ".." _ (by decide)
            | none => simp

/-- A successful symbol table lookup yields one of the table values. -/
theorem list_lookup_mem_values {α β : Type} [BEq α] (l : List (α × β)) (k : α)
    (v : β) (h : l.lookup k = some v) : v ∈ l.map Prod.snd := by
  induction l with
  | nil => simp [List.lookup] at h
  | cons q rest ih =>
    obtain ⟨k2, v2⟩ := q
    rw [List.lookup] at h
    cases hbeq : (k == k2) with
    | true =>
      rw [hbeq] at h
      cases h
      simp
    | false =>
      rw [hbeq] at h
      simp only [List.map_cons, List.mem_cons]
      exact Or.inr (ih h)

/-- The unit normalizer never returns the empty string. -/
theorem normalize_unit_ne_empty (c : String) : normalize_unit c ≠ some "" := by
  unfold normalize_unit
  by_cases hc : c = ""
  · simp [hc]
  · rw [if_neg hc]
    cases hu : unit_map.lookup (lowerStripDots c) with
    | some u =>
      simp only [ne_eq, Option.some.injEq]
      intro h
      subst h
      exact absurd (list_lookup_mem_values _ _ _ hu) (by decide)
    | none =>
      by_cases hf1 : reFullmatch (lowerStripDots c).data (reStr "1/bohr^3") = true
      · simp [hf1]
      · by_cases hf2 :
          (reFullmatch c.data (.plusCls unitTokNoStarCls) && c.length ≤ 12) = true
        · simp only [if_neg hf1, if_pos hf2, ne_eq, Option.some.injEq]
          exact hc
        · simp [hf1, hf2]

/-- The first-normalizing-candidate loop never returns the empty string. -/
theorem firstNorm_ne_empty (l : List String) : firstNorm l ≠ some "" := by
  induction l with
  | nil => simp [firstNorm]
  | cons c cs ih =>
    unfold firstNorm
    cases hn : normalize_unit c with
    | some u =>
      have h := normalize_unit_ne_empty c
      rw [hn] at h
      exact h
    | none => exact ih

/-- The units extractor never returns the empty string. -/
theorem extract_units_ne_empty (d : Option String) : extract_units d ≠ some "" := by
  unfold extract_units
  cases d with
  | none => simp
  | some s =>
    by_cases hs : s = ""
    · simp [hs]
    · simpa [hs] using firstNorm_ne_empty (parenCands s ++ inCands s ++ ofCands s)

/-- First-occurrence de-duplication keeps a non-empty list non-empty. -/
theorem dedupKeepFirst_ne_nil (l : List String) (h : l ≠ []) :
    dedupKeepFirst l ≠ [] := by
  cases l with
  | nil => exact absurd rfl h
  | cons x xs =>
    unfold dedupKeepFirst dedupKeepFirst.go
    simp

/-- A produced constraint set always has a non-empty validWhen list: an
empty set is represented by absence, never by an empty ConstraintSet. -/
theorem extract_constraints_validWhen (d : Option String) (cs : ConstraintSet)
    (h : extract_constraints d = some cs) : cs.validWhen ≠ [] := by
  unfold extract_constraints at h
  cases d with
  | none => simp at h
  | some s =>
    by_cases hs : s = ""
    · simp [hs] at h
    · simp only [if_neg hs] at h
      by_cases hn : (rawClauses s).filterMap normalize_condition = []
      · simp [hn] at h
      · simp only [if_neg hn] at h
        have hv := Option.some.inj h
        subst hv
        exact dedupKeepFirst_ne_nil _ hn

/-! ### Well-formedness of parsed variables -/

/-- The facts about a parsed variable the artifact claims rest on: its range
and units are never empty strings, and a present constraint set has a
non-empty validWhen list. -/
def VarWf (v : VarInfo) : Prop :=
  v.range ≠ some "" ∧ v.units ≠ some "" ∧
    ∀ cs : ConstraintSet, v.constraints = some cs → cs.validWhen ≠ []

/-- Every variable _parse_variable_table produces is well formed. -/
theorem parse_variable_table_wf (t : Node) (st ty : String) (v : VarInfo)
    (h : parse_variable_table t st ty = some v) : VarWf v := by
  unfold parse_variable_table at h
  split at h
  · split at h
    · split at h
      · exact absurd h (by simp)
      · have hv := Option.some.inj h
        subst hv
        exact ⟨extract_range_ne_empty _, extract_units_ne_empty _,
               fun cs hcs => extract_constraints_validWhen _ cs hcs⟩
    · exact absurd h (by simp)
  · exact absurd h (by simp)

/-- The table fold keeps every stored variable well formed. -/
theorem foldl_varStep_wf (title sty : String) (tables : List Node) :
    ∀ acc : List (String × VarInfo), (∀ p ∈ acc, VarWf p.2) →
    ∀ p ∈ tables.foldl (varStep title sty) acc, VarWf p.2 := by
  induction tables with
  | nil => intro acc hacc p hp; exact hacc p hp
  | cons t rest ih =>
    intro acc hacc p hp
    rw [List.foldl_cons] at hp
    refine ih _ ?_ p hp
    intro q hq
    unfold varStep at hq
    cases hpt : parse_variable_table t title sty with
    | none => rw [hpt] at hq; exact hacc q hq
    | some vi =>
      rw [hpt] at hq
      rcases mem_dinsert q vi.name vi acc hq with h | h
      · rw [h]
        exact parse_variable_table_wf _ _ _ _ hpt
      · exact hacc q h

/-- Every variable in a section's variables dict is well formed. -/
theorem sectionVariables_wf (sec : SectionRec) :
    ∀ p ∈ sectionVariables sec, VarWf p.2 := by
  unfold sectionVariables
  exact foldl_varStep_wf _ _ _ [] (by simp)

/-- For an optional string that is never the empty string, Python truthiness
agrees with presence. -/
theorem optTruthy_iff (o : Option String) (h : o ≠ some "") :
    optTruthy o = true ↔ o ≠ none := by
  cases o with
  | none => simp [optTruthy]
  | some s =>
    have hs : s ≠ "" := fun hh => h (by rw [hh])
    simp [optTruthy, hs]

/-- For a well-formed variable, the ranges.json condition of main is
equivalent to presence of range or units. -/
theorem varWf_truthy (v : VarInfo) (h : VarWf v) :
    ((optTruthy v.range || optTruthy v.units) = true) ↔
      (v.range ≠ none ∨ v.units ≠ none) := by
  rw [Bool.or_eq_true, optTruthy_iff _ h.1, optTruthy_iff _ h.2.1]

/-! ### Lookup characterization of constraints.json and ranges.json -/

/-- The variable loop defines a constraints.json key exactly when it was
already defined or some variable of the list with a present constraint set
produces it. -/
theorem processVars_constraints_notNone (title : String)
    (vars : List (String × VarInfo)) :
    ∀ (a : Artifacts) (k : String),
      alookup k (processVars title a vars).constraintVariables ≠ none ↔
        (alookup k a.constraintVariables ≠ none ∨
          ∃ p ∈ vars, k = title ++ "." ++ p.1 ∧ p.2.constraints ≠ none) := by
  induction vars with
  | nil => intro a k; simp [processVars]
  | cons p rest ih =>
    intro a k
    rw [show processVars title a (p :: rest) =
          processVars title (processVar title a p) rest from rfl, ih]
    rw [processVar_constraints]
    cases hc : p.2.constraints with
    | some cs =>
      rw [alookup_dinsert_notNone]
      simp only [List.exists_mem_cons_iff, hc, ne_eq, reduceCtorEq,
                 not_false_eq_true, and_true]
      try tauto
    | none =>
      simp only [List.exists_mem_cons_iff, hc, ne_eq, not_true_eq_false,
                 and_false, false_or]
      try tauto

/-- The variable loop defines a ranges.json key exactly when it was already
defined or some variable with truthy range or units produces it. -/
theorem processVars_ranges_notNone (title : String)
    (vars : List (String × VarInfo)) :
    ∀ (a : Artifacts) (k : String),
      alookup k (processVars title a vars).rangeVariables ≠ none ↔
        (alookup k a.rangeVariables ≠ none ∨
          ∃ p ∈ vars, k = title ++ "." ++ p.1 ∧
            (optTruthy p.2.range || optTruthy p.2.units) = true) := by
  induction vars with
  | nil => intro a k; simp [processVars]
  | cons p rest ih =>
    intro a k
    rw [show processVars title a (p :: rest) =
          processVars title (processVar title a p) rest from rfl, ih]
    rw [processVar_ranges]
    by_cases ht : (optTruthy p.2.range || optTruthy p.2.units) = true
    · rw [if_pos ht, alookup_dinsert_notNone]
      simp only [List.exists_mem_cons_iff, ht, and_true]
      try tauto
    · rw [if_neg ht]
      simp only [List.exists_mem_cons_iff, ht, and_false, false_or]
      try tauto

/-- One section loop iteration, for constraints.json lookups. -/
theorem processSection_constraints_notNone (a : Artifacts) (sec : SectionRec)
    (k : String) :
    alookup k (processSection a sec).constraintVariables ≠ none ↔
      (alookup k a.constraintVariables ≠ none ∨
        ∃ p ∈ sectionVariables sec,
          k = sec.title ++ "." ++ p.1 ∧ p.2.constraints ≠ none) := by
  simp only [processSection]
  rw [processVars_constraints_notNone]
  dsimp only
  rw [updCards_constraints]

/-- One section loop iteration, for ranges.json lookups. -/
theorem processSection_ranges_notNone (a : Artifacts) (sec : SectionRec)
    (k : String) :
    alookup k (processSection a sec).rangeVariables ≠ none ↔
      (alookup k a.rangeVariables ≠ none ∨
        ∃ p ∈ sectionVariables sec, k = sec.title ++ "." ++ p.1 ∧
          (optTruthy p.2.range || optTruthy p.2.units) = true) := by
  simp only [processSection]
  rw [processVars_ranges_notNone]
  dsimp only
  rw [updCards_ranges]

/-- The section fold, for constraints.json lookups. -/
theorem foldl_constraints_notNone (secs : List SectionRec) :
    ∀ (a : Artifacts) (k : String),
      alookup k ((secs.foldl processSection a).constraintVariables) ≠ none ↔
        (alookup k a.constraintVariables ≠ none ∨
          ∃ sec ∈ secs, ∃ p ∈ sectionVariables sec,
            k = sec.title ++ "." ++ p.1 ∧ p.2.constraints ≠ none) := by
  induction secs with
  | nil => intro a k; simp
  | cons s rest ih =>
    intro a k
    rw [List.foldl_cons, ih, processSection_constraints_notNone]
    simp only [List.exists_mem_cons_iff]
    exact or_assoc

/-- The section fold, for ranges.json lookups. -/
theorem foldl_ranges_notNone (secs : List SectionRec) :
    ∀ (a : Artifacts) (k : String),
      alookup k ((secs.foldl processSection a).rangeVariables) ≠ none ↔
        (alookup k a.rangeVariables ≠ none ∨
          ∃ sec ∈ secs, ∃ p ∈ sectionVariables sec,
            k = sec.title ++ "." ++ p.1 ∧
              (optTruthy p.2.range || optTruthy p.2.units) = true) := by
  induction secs with
  | nil => intro a k; simp
  | cons s rest ih =>
    intro a k
    rw [List.foldl_cons, ih, processSection_ranges_notNone]
    simp only [List.exists_mem_cons_iff]
    exact or_assoc

/-! ### Every stored constraint set has a non-empty validWhen list -/

/-- All values of a constraints map have non-empty validWhen lists. -/
def goodCV (m : List (String × ConstraintSet)) : Prop :=
  ∀ q ∈ m, q.2.validWhen ≠ []

/-- Insertion of a good value preserves goodness. -/
theorem goodCV_dinsert (k : String) (cs : ConstraintSet)
    (m : List (String × ConstraintSet)) (hcs : cs.validWhen ≠ [])
    (hm : goodCV m) : goodCV (dinsert k cs m) := by
  intro q hq
  rcases mem_dinsert q k cs m hq with h | h
  · rw [h]; exact hcs
  · exact hm q h

/-- One variable write preserves goodness. -/
theorem processVar_goodCV (title : String) (a : Artifacts) (p : String × VarInfo)
    (hp : VarWf p.2) (h : goodCV a.constraintVariables) :
    goodCV (processVar title a p).constraintVariables := by
  rw [processVar_constraints]
  cases hc : p.2.constraints with
  | none => exact h
  | some cs => exact goodCV_dinsert _ _ _ (hp.2.2 cs hc) h

/-- The variable loop preserves goodness for well-formed variables. -/
theorem processVars_goodCV (title : String) (vars : List (String × VarInfo))
    (hw : ∀ p ∈ vars, VarWf p.2) :
    ∀ a : Artifacts, goodCV a.constraintVariables →
      goodCV (processVars title a vars).constraintVariables := by
  induction vars with
  | nil => intro a h; exact h
  | cons p rest ih =>
    intro a h
    rw [show processVars title a (p :: rest) =
          processVars title (processVar title a p) rest from rfl]
    exact ih (fun q hq => hw q (List.mem_cons_of_mem _ hq)) _
      (processVar_goodCV title a p (hw p (List.mem_cons_self _ _)) h)

/-- One section loop iteration preserves goodness. -/
theorem processSection_goodCV (a : Artifacts) (sec : SectionRec)
    (h : goodCV a.constraintVariables) :
    goodCV (processSection a sec).constraintVariables := by
  simp only [processSection]
  apply processVars_goodCV _ _ (sectionVariables_wf sec)
  dsimp only
  rw [updCards_constraints]
  exact h

/-- The section fold preserves goodness. -/
theorem foldl_goodCV (secs : List SectionRec) :
    ∀ a : Artifacts, goodCV a.constraintVariables →
      goodCV ((secs.foldl processSection a).constraintVariables) := by
  induction secs with
  | nil => intro a h; exact h
  | cons s rest ih =>
    intro a h
    rw [List.foldl_cons]
    exact ih _ (processSection_goodCV a s h)

/-- Every constraint set the whole run stores has a non-empty validWhen. -/
theorem runMain_goodCV (secs : List SectionRec) :
    goodCV (runMain secs).constraintVariables := by
  unfold runMain
  refine foldl_goodCV secs emptyArtifacts ?_
  intro q hq
  simp [emptyArtifacts] at hq

/-! ### Claim C8 -/

/-- C8: a constraints.json entry for a key exists exactly when some parsed
variable with that key derived at least one condition (and a stored
ConstraintSet always has a non-empty validWhen list, so an empty set is
represented by absence); a ranges.json entry exists exactly when some parsed
variable with that key has a non-null range or units. -/
theorem C8_theorem :
    (∀ (secs : List SectionRec) (k : String),
      alookup k (runMain secs).constraintVariables ≠ none ↔
        ∃ sec ∈ secs, ∃ p ∈ sectionVariables sec,
          k = sec.title ++ "." ++ p.1 ∧ p.2.constraints ≠ none) ∧
    (∀ (secs : List SectionRec) (k : String),
      alookup k (runMain secs).rangeVariables ≠ none ↔
        ∃ sec ∈ secs, ∃ p ∈ sectionVariables sec,
          k = sec.title ++ "." ++ p.1 ∧ (p.2.range ≠ none ∨ p.2.units ≠ none)) ∧
    (∀ (d : Option String) (cs : ConstraintSet),
      extract_constraints d = some cs → cs.validWhen ≠ []) ∧
    (∀ (secs : List SectionRec) (k : String) (cs : ConstraintSet),
      alookup k (runMain secs).constraintVariables = some cs →
        cs.validWhen ≠ []) := by
  refine ⟨?_, ?_, extract_constraints_validWhen, ?_⟩
  · intro secs k
    unfold runMain
    rw [foldl_constraints_notNone]
    simp [emptyArtifacts, alookup]
  · intro secs k
    unfold runMain
    rw [foldl_ranges_notNone]
    simp only [emptyArtifacts, alookup, ne_eq, not_true_eq_false, false_or]
    constructor
    · rintro ⟨sec, hsec, p, hp, hk, hcond⟩
      exact ⟨sec, hsec, p, hp, hk,
        (varWf_truthy p.2 (sectionVariables_wf sec p hp)).mp hcond⟩
    · rintro ⟨sec, hsec, p, hp, hk, hcond⟩
      exact ⟨sec, hsec, p, hp, hk,
        (varWf_truthy p.2 (sectionVariables_wf sec p hp)).mpr hcond⟩
  · intro secs k cs h
    exact runMain_goodCV secs (k, cs) (alookup_mem k cs _ h)

/-- A SYSTEM section table holding the ibrav variable table, for the C8
witness. -/
def sysSecTable : Node := .elem "table" [] [ibravTable]

/-- The SYSTEM section record for the C8 witness. -/
def sysSec : SectionRec :=
  { title := "SYSTEM", sectionType := "namelist", table := sysSecTable }

/-- C8, witness: the hypothesis-bearing parts applied at the one-section
SYSTEM run and at a concrete description. -/
theorem C8_witness :
    ({ requires := [], conflicts := [], implies := [],
       validWhen := ["ibrav = 0"] } : ConstraintSet).validWhen ≠ [] ∧
    ({ requires := [], conflicts := [], implies := [],
       validWhen := ["ibrav == 0"] } : ConstraintSet).validWhen ≠ [] :=
  ⟨C8_theorem.2.2.2 [sysSec] "SYSTEM.ibrav"
      { requires := [], conflicts := [], implies := [], validWhen := ["ibrav = 0"] }
      (by decide),
   C8_theorem.2.2.1 (some "only if ibrav == 0")
      { requires := [], conflicts := [], implies := [], validWhen := ["ibrav == 0"] }
      (by decide)⟩

end QE


